import Mathlib

/-!
GFD outline-font container codec (mhw-font-util).

A shallow embedding of `src/src/main.cpp` and `src/include/Font.h`.

Conventions of the embedding:

* a byte buffer is a `List Nat` whose entries are below 256 (`IsBytes`);
* `uint32_t` / `uint64_t` values are natural numbers, reduced `% 2^32` /
  `% 2^64` at the places where the C++ arithmetic wraps;
* the layout is that of the little-endian 64-bit targets the tool is built
  for: `sizeof(FontHeader) = 52`, `size_t` is 64 bits wide, the bytes of a
  word are read lowest first;
* a loop whose counter can wrap is run with explicit fuel: `none` is
  "no result within the fuel";
* values C++ leaves unspecified are parameters of the model: the result of
  the 64-bit left shift by 64 (`sh`), the prior content of an uninitialised
  local (`junk`), the memory behind the end of a heap buffer (`beyond`);
* an empty `std::vector` owns no memory and its `data()` is null: reading
  through it faults and the run is killed (`Decoded.killed`);
* files open, `seekg` to a position at or behind the end of the file succeeds,
  and memory allocation succeeds.
-/

namespace FontUtil

/-! ## Bytes and little-endian words -/

/-- Every entry of the buffer is a byte. -/
def IsBytes (bs : List Nat) : Prop := ∀ b ∈ bs, b < 256

instance (bs : List Nat) : Decidable (IsBytes bs) := by
  unfold IsBytes; infer_instance

/-- The four bytes of a 32-bit value in memory order (lowest first). -/
def le32 (v : Nat) : List Nat :=
  [v % 256, v / 256 % 256, v / 65536 % 256, v / 16777216 % 256]

/-- The 32-bit value held by (up to) four bytes in memory order. -/
def u32le (bs : List Nat) : Nat :=
  bs.getD 0 0 + 256 * bs.getD 1 0 + 65536 * bs.getD 2 0 + 16777216 * bs.getD 3 0

/-! ## The keystream transform `xor_crypt` (main.cpp 64-79) -/

/-- The constant `0xae6e39b58a355f45` of line 71. -/
def K : Nat := 0xae6e39b58a355f45

/-- The loop of lines 67-69, `n = (n << 1) + 1` in `uint64_t`, run `count`
times (the counter `i` runs from 0 to `len3f <= 63` and cannot wrap). -/
def maskLoop : Nat → Nat → Nat
  | 0, n => n
  | count + 1, n => maskLoop count ((n * 2 + 1) % 2 ^ 64)

/-- The `uint64_t` shift `x << s`. For `s < 64` it is the truncated product;
the shift by the full width is undefined in C++ and its value is given by
`sh` (`fun x => x` on hardware that masks the count to six bits, `fun _ => 0`
when every bit is shifted out of the word). -/
def shl64 (sh : Nat → Nat) (x s : Nat) : Nat :=
  if s < 64 then (x * 2 ^ s) % 2 ^ 64 else sh x % 2 ^ 64

/-- The shift by 64 on hardware that masks the shift count (x86-64, AArch64). -/
def shMasked : Nat → Nat := fun x => x

/-- The shift by 64 when every bit is shifted out of the word. -/
def shZero : Nat → Nat := fun _ => 0

/-- The key word of lines 65-71 for a buffer of `size` bytes. -/
def keyWord (sh : Nat → Nat) (size : Nat) : Nat :=
  let len3f := size % 64
  let n := maskLoop len3f 1
  shl64 sh (n &&& K) (64 - len3f) ||| (K >>> len3f)

/-- The byte `xor_key[i]` of line 77: byte `i` of the key word in memory order. -/
def keyByte (n i : Nat) : Nat := n >>> (8 * i) % 256

/-- The loop of lines 76-78 with its `uint32_t` counter `j`; `size` is
`buffer.size()`. -/
def xorLoop (size n : Nat) : Nat → Nat → List Nat → Option (List Nat)
  | 0, _, _ => none
  | fuel + 1, j, buf =>
    if j < size then
      xorLoop size n fuel ((j + 1) % 2 ^ 32)
        (buf.set j ((buf.getD j 0 ^^^ keyByte n (j % 8)) % 256))
    else some buf

/-- `xor_crypt` (lines 64-79): the buffer after the in-place transform. -/
def xor_crypt (sh : Nat → Nat) (fuel : Nat) (buffer : List Nat) : Option (List Nat) :=
  xorLoop buffer.length (keyWord sh buffer.length) fuel 0 buffer

/-! ## `Font.h` -/

/-- The enumeration `FontType` (Font.h 5-11). -/
inductive FontType where
  | Textured | ImageBased | MergeTexture | Outlined | Merge
  deriving DecidableEq, Repr

/-- The enumerator values of `FontType`: `Textured = 0` and counting on. -/
def FontType.code : FontType → Nat
  | .Textured => 0 | .ImageBased => 1 | .MergeTexture => 2 | .Outlined => 3 | .Merge => 4

/-- The enumeration `TexSuffix` (Font.h 13-21). -/
inductive TexSuffix where
  | None | ID | HQ | ID_HQ | IDL | IDL_HQ | AM_NOMIP
  deriving DecidableEq, Repr

/-- The enumerator values of `TexSuffix`: `None = 0` and counting on. -/
def TexSuffix.code : TexSuffix → Nat
  | .None => 0 | .ID => 1 | .HQ => 2 | .ID_HQ => 3 | .IDL => 4 | .IDL_HQ => 5 | .AM_NOMIP => 6

/-- The record `FontHeader` (Font.h 23-37). The two enumeration fields hold the
32-bit value found in the file, which need not be an enumerator; the three
`float` fields hold their binary32 bit pattern. -/
structure FontHeader where
  magic : List Nat
  version : Nat
  attr : Nat
  suffix : Nat
  type : Nat
  size : Nat
  texture_count : Nat
  char_count : Nat
  unk0 : Nat
  descent_count : Nat
  max_ascent : Nat
  max_descent : Nat
  unk1 : Nat
  deriving DecidableEq, Repr

/-- `sizeof(FontHeader)`: thirteen 4-byte members, no padding. -/
def sizeofFontHeader : Nat := 52

/-- The memory image of a header, as `write(out, header)` emits it. -/
def FontHeader.bytes (h : FontHeader) : List Nat :=
  h.magic ++ le32 h.version ++ le32 h.attr ++ le32 h.suffix ++ le32 h.type ++ le32 h.size
    ++ le32 h.texture_count ++ le32 h.char_count ++ le32 h.unk0 ++ le32 h.descent_count
    ++ le32 h.max_ascent ++ le32 h.max_descent ++ le32 h.unk1

/-- The header whose memory image is `bs` (the result of `read<FontHeader>`). -/
def FontHeader.ofBytes (bs : List Nat) : FontHeader :=
  { magic := bs.take 4
    version := u32le (bs.drop 4)
    attr := u32le (bs.drop 8)
    suffix := u32le (bs.drop 12)
    type := u32le (bs.drop 16)
    size := u32le (bs.drop 20)
    texture_count := u32le (bs.drop 24)
    char_count := u32le (bs.drop 28)
    unk0 := u32le (bs.drop 32)
    descent_count := u32le (bs.drop 36)
    max_ascent := u32le (bs.drop 40)
    max_descent := u32le (bs.drop 44)
    unk1 := u32le (bs.drop 48) }

/-- Every member of the header fits its C++ type. -/
def FontHeader.WF (h : FontHeader) : Prop :=
  h.magic.length = 4 ∧ IsBytes h.magic ∧ h.version < 2 ^ 32 ∧ h.attr < 2 ^ 32 ∧
  h.suffix < 2 ^ 32 ∧ h.type < 2 ^ 32 ∧ h.size < 2 ^ 32 ∧ h.texture_count < 2 ^ 32 ∧
  h.char_count < 2 ^ 32 ∧ h.unk0 < 2 ^ 32 ∧ h.descent_count < 2 ^ 32 ∧
  h.max_ascent < 2 ^ 32 ∧ h.max_descent < 2 ^ 32 ∧ h.unk1 < 2 ^ 32

instance (h : FontHeader) : Decidable h.WF := by
  unfold FontHeader.WF; infer_instance

/-! ## The input stream (`std::ifstream`) -/

/-- The state of a binary input file stream: the bytes of the file, the get
position, and the `failbit`. -/
structure IfStream where
  data : List Nat
  pos : Nat
  fail : Bool
  deriving DecidableEq, Repr

/-- A stream freshly opened on a file holding `data`. -/
def IfStream.opened (data : List Nat) : IfStream := { data := data, pos := 0, fail := false }

/-- `file.read(dst, n)`: on a failed stream nothing happens; otherwise the
bytes still available, at most `n`, replace the front of `dst`, and a short
count sets `failbit`. -/
def IfStream.read (file : IfStream) (n : Nat) (dst : List Nat) : List Nat × IfStream :=
  if file.fail then (dst, file)
  else
    let got := (file.data.drop file.pos).take n
    (got ++ dst.drop got.length,
      { file with pos := file.pos + got.length, fail := decide (got.length < n) })

/-- `file.seekg(off, std::ios::cur)` with `off >= 0`: on a failed stream nothing
happens; otherwise the position moves, also behind the end of the file. -/
def IfStream.seekg (file : IfStream) (off : Nat) : IfStream :=
  if file.fail then file else { file with pos := file.pos + off }

/-- `(uint64_t)file.tellg()`: the position, or `-1` on a failed stream. -/
def IfStream.tellg (file : IfStream) : Nat :=
  if file.fail then 2 ^ 64 - 1 else file.pos

/-- `read<uint32_t>(file)` (lines 12-17); `junk` is the prior content of the
uninitialised local `value`. -/
def read_u32 (file : IfStream) (junk : Nat) : Nat × IfStream :=
  let r := file.read 4 (le32 junk)
  (u32le r.1, r.2)

/-- `read<FontHeader>(file)` (lines 12-17); `junk` is the prior content of the
uninitialised local `value`. -/
def read_header (file : IfStream) (junk : FontHeader) : FontHeader × IfStream :=
  let r := file.read sizeofFontHeader junk.bytes
  (FontHeader.ofBytes r.1, r.2)

/-- `check_magic(data, magic)` (line 9): `memcmp` over four bytes; `data` is
the memory found at the pointer. -/
def check_magic (data magic : List Nat) : Bool := data.take 4 == magic.take 4

/-- The string literal `"GFD\0"` with its terminator. -/
def magicGFD : List Nat := [71, 70, 68, 0, 0]

/-- The string literal `"OTTO"` with its terminator. -/
def magicOTTO : List Nat := [79, 84, 84, 79, 0]

/-! ## Decode: `process_outline_font` (main.cpp 81-121) -/

/-- What `process_outline_font` did. -/
inductive Decoded where
  /-- The early return of lines 82-85, with the stream as it is left. -/
  | notProcessable (file : IfStream)
  /-- The run to the end: the offset and buffer size printed at lines 105-106,
  the extension chosen at line 113, and the bytes written at line 118. -/
  | written (offset buffer_size : Nat) (extension : String) (bytes : List Nat)
  /-- The fault at line 113 on an empty buffer: `buffer.data()` is null, the
  `memcmp` reads through it, and the run is killed with nothing written; the
  offset is the one printed at line 105 (the size printed at line 106 is 0). -/
  | killed (offset : Nat)
  deriving DecidableEq, Repr

/-- The loop of lines 93-96, for `count` more iterations from index `i`. -/
def skipNames (junk : Nat → Nat) : Nat → Nat → IfStream → IfStream
  | 0, _, file => file
  | count + 1, i, file =>
    let r := read_u32 file (junk (4 + i))
    skipNames junk count (i + 1) (r.2.seekg ((r.1 + 1) % 2 ^ 32))

/-- `process_outline_font` (lines 81-121). `junk k` is the prior content of the
local that the `k`-th `read<uint32_t>` fills (0: `tex_path_size`, 1: f0, 2: f4,
3: `buffer_size`, `4 + i`: `tex_name_size` of iteration `i`); `beyond` is the
memory behind the end of a `buffer` that is not empty. For `buffer_size = 0`
the vector owns no memory and line 113 reads through a null pointer. -/
def process_outline_font (sh : Nat → Nat) (fuel : Nat) (junk : Nat → Nat) (beyond : List Nat)
    (file : IfStream) (header : FontHeader) : Option Decoded :=
  if header.attr &&& 1 ≠ 0 ∨ header.texture_count ≠ 0 then
    some (.notProcessable file)
  else
    let file := file.seekg (header.descent_count * 4)
    let tex_path_size := read_u32 file (junk 0)
    let file := tex_path_size.2.seekg ((tex_path_size.1 + 1) % 2 ^ 32)
    let file :=
      if header.attr >>> 3 &&& 1 = 0 ∧ header.texture_count ≠ 0 then
        skipNames junk header.texture_count 0 file
      else file
    let file := file.seekg ((header.char_count + header.unk0) % 2 ^ 32 * 20)
    let f0 := read_u32 file (junk 1)
    let f4 := read_u32 f0.2 (junk 2)
    let buffer_size := read_u32 f4.2 (junk 3)
    let offset := buffer_size.2.tellg
    let buffer := (buffer_size.2.read buffer_size.1 (List.replicate buffer_size.1 0)).1
    (xor_crypt sh fuel buffer).map fun buffer =>
      if buffer_size.1 = 0 then .killed offset
      else
        let extension := if check_magic (buffer ++ beyond) magicOTTO then ".otf" else ".ttf"
        .written offset buffer_size.1 extension buffer

/-! ## Encode: `generate_outline_font` (main.cpp 123-167) -/

/-- The header built at lines 131-148. -/
def generatedHeader : FontHeader :=
  { magic := [71, 70, 68, 0]
    version := 135432
    attr := 12
    suffix := TexSuffix.ID_HQ.code
    type := FontType.Outlined.code
    size := 32
    texture_count := 0
    char_count := 0
    unk0 := 0
    descent_count := 0
    max_ascent := 0x42018937   -- 32.384f
    max_descent := 0x4202cccd  -- 32.7f
    unk1 := 0x41420c4a }       -- 12.128f

/-- `generate_outline_font` (lines 123-167): the bytes written to the `.gfd`
file; `file_size` is `std::filesystem::file_size(file_path)`. -/
def generate_outline_font (sh : Nat → Nat) (fuel : Nat) (file : IfStream) (file_size : Nat) :
    Option (List Nat) :=
  let buffer := (file.read file_size (List.replicate file_size 0)).1
  (xor_crypt sh fuel buffer).map fun buffer =>
    generatedHeader.bytes ++ le32 0 ++ [0] ++ le32 1877690412 ++ le32 0
      ++ le32 (buffer.length % 2 ^ 32) ++ buffer

/-! ## `main` (main.cpp 26-62) -/

/-- What a run of the program did. -/
inductive Outcome where
  | usage
  | generated (gfd : List Nat)
  | invalidFormat
  | unsupportedVersion
  | unsupportedType
  | processed (result : Decoded)
  deriving DecidableEq, Repr

/-- The three checks of lines 44-57 on a header just read: the diagnostic that
ends the run, or `none` when the header goes on to `process_outline_font`. -/
def validate (header : FontHeader) : Option Outcome :=
  if ¬ check_magic header.magic magicGFD then some .invalidFormat
  else if header.version ≠ 135432 then some .unsupportedVersion
  else if header.type ≠ FontType.Outlined.code then some .unsupportedType
  else none

/-- The status of a run that went into `process_outline_font`: 0 when the
function returned and `main` reached line 61. A run killed at line 113 never
returns from `main`; the status recorded for it is the one a POSIX shell
reports for a segmentation fault, 128 + 11. -/
def exitStatus : Decoded → Nat
  | .killed _ => 139
  | _ => 0

/-- `main` (lines 26-62): the exit status and what was done. `extension` is
`font_file.extension()` and `data` the content of the file `argv[1]`. -/
def main (sh : Nat → Nat) (fuel : Nat) (junkHeader : FontHeader) (junk : Nat → Nat)
    (beyond : List Nat) (argc : Nat) (extension : String) (data : List Nat) :
    Option (Nat × Outcome) :=
  if argc < 2 then some (1, .usage)
  else
    let file := IfStream.opened data
    if extension = ".otf" ∨ extension = ".ttf" then
      (generate_outline_font sh fuel file data.length).map fun gfd => (0, .generated gfd)
    else
      let header := read_header file junkHeader
      match validate header.1 with
      | some failure => some (1, failure)
      | none =>
        (process_outline_font sh fuel junk beyond header.2 header.1).map fun result =>
          (exitStatus result, .processed result)

/-! ## The container layout in the words of the specification -/

/-- The texture-path length found in a container: the 32-bit field behind the
52-byte header and the `descent_count` floats. -/
def texPathLen (data : List Nat) (h : FontHeader) : Nat :=
  u32le (data.drop (52 + 4 * h.descent_count))

/-- The offset of the `buffer_size` field as the specification gives it:
`52 + 4*descent_count + 4 + (p + 1) + 20*(char_count + unk0) + 8`. -/
def sizeFieldOffset (h : FontHeader) (p : Nat) : Nat :=
  52 + 4 * h.descent_count + 4 + (p + 1) + 20 * (h.char_count + h.unk0) + 8

/-- The extension line 113 chooses for a transformed buffer. -/
def extensionOf (buffer beyond : List Nat) : String :=
  if check_magic (buffer ++ beyond) magicOTTO then ".otf" else ".ttf"

/-- A processable header with `char_count = 10`, `unk0 = 5`, `descent_count = 3`. -/
def sampleHeader : FontHeader :=
  { generatedHeader with attr := 8, char_count := 10, unk0 := 5, descent_count := 3 }

/-- A container for `sampleHeader`: three descents, an empty texture path,
fifteen glyph records, f0, f4, the size 8 and eight payload bytes. -/
def sampleContainer : List Nat :=
  sampleHeader.bytes ++ List.replicate 12 7 ++ le32 0 ++ [0] ++ List.replicate 300 9
    ++ le32 1877690412 ++ le32 0 ++ le32 8 ++ [10, 11, 12, 13, 14, 15, 16, 17]

/-- A valid `Outlined` header with bit 0 of `attr` set. -/
def flaggedHeader : FontHeader := { generatedHeader with attr := 13 }

/-- A valid `Outlined` header with one texture. -/
def texturedHeader : FontHeader := { generatedHeader with texture_count := 1 }

/-- A container that announces four payload bytes and holds two: the 65 bytes
`generate_outline_font` writes before the size field, the size 4, and two
bytes. -/
def truncatedContainer : List Nat :=
  generatedHeader.bytes ++ le32 0 ++ [0] ++ le32 1877690412 ++ le32 0 ++ le32 4 ++ [9, 9]

/-- The container `generate_outline_font` writes for the 3-byte input
`'O','T','T'`: the 65 bytes before the size field, the size 3, and the three
transformed bytes. -/
def threeByteContainer : List Nat :=
  generatedHeader.bytes ++ le32 0 ++ [0] ++ le32 1877690412 ++ le32 0 ++ le32 3 ++ [167, 255, 18]

/-- The function `process_outline_font` with the guarded loop of lines 92-97
taken out and every other line kept. -/
def process_outline_font_without_loop (sh : Nat → Nat) (fuel : Nat) (junk : Nat → Nat)
    (beyond : List Nat) (file : IfStream) (header : FontHeader) : Option Decoded :=
  if header.attr &&& 1 ≠ 0 ∨ header.texture_count ≠ 0 then
    some (.notProcessable file)
  else
    let file := file.seekg (header.descent_count * 4)
    let tex_path_size := read_u32 file (junk 0)
    let file := tex_path_size.2.seekg ((tex_path_size.1 + 1) % 2 ^ 32)
    let file := file.seekg ((header.char_count + header.unk0) % 2 ^ 32 * 20)
    let f0 := read_u32 file (junk 1)
    let f4 := read_u32 f0.2 (junk 2)
    let buffer_size := read_u32 f4.2 (junk 3)
    let offset := buffer_size.2.tellg
    let buffer := (buffer_size.2.read buffer_size.1 (List.replicate buffer_size.1 0)).1
    (xor_crypt sh fuel buffer).map fun buffer =>
      if buffer_size.1 = 0 then .killed offset
      else
        let extension := if check_magic (buffer ++ beyond) magicOTTO then ".otf" else ".ttf"
        .written offset buffer_size.1 extension buffer

/-- A valid, processable header whose two record counts add up to `2^32`. -/
def wrappingHeader : FontHeader :=
  { generatedHeader with char_count := 4294967295, unk0 := 1 }

/-- A container for `wrappingHeader` with no glyph record at all: an empty
texture path, f0, f4, the size 2 and two payload bytes. -/
def wrappingContainer : List Nat :=
  wrappingHeader.bytes ++ le32 0 ++ [0] ++ le32 1877690412 ++ le32 0 ++ le32 2 ++ [1, 2]

/-- A header of zero bytes, as the prior content of an uninitialised local. -/
def zeroHeader : FontHeader :=
  { magic := [0, 0, 0, 0], version := 0, attr := 0, suffix := 0, type := 0, size := 0,
    texture_count := 0, char_count := 0, unk0 := 0, descent_count := 0, max_ascent := 0,
    max_descent := 0, unk1 := 0 }

/-- A file of 20 bytes: the magic, version, attr, suffix and type fields of the
header `generate_outline_font` writes, and nothing behind them. -/
def shortStream : List Nat :=
  [71, 70, 68, 0, 8, 17, 2, 0, 12, 0, 0, 0, 3, 0, 0, 0, 3, 0, 0, 0]

/-! ## Closed forms used in the proofs -/

/-- The closed form of the second loop: byte `j + i` of the input is combined
with key byte `(j + i) % 8`. -/
def xorFrom (n : Nat) : Nat → List Nat → List Nat
  | _, [] => []
  | j, b :: bs => ((b ^^^ keyByte n (j % 8)) % 256) :: xorFrom n (j + 1) bs

/-- The 65 bytes `generate_outline_font` writes before the size field: the
header, the empty texture path with its terminator, f0 and f4. -/
def generatedPrefix : List Nat :=
  generatedHeader.bytes ++ le32 0 ++ [0] ++ le32 1877690412 ++ le32 0

/-- Lines 113-118 on a transformed buffer: the fault on an empty buffer, the
written file otherwise. -/
def finish (offset buffer_size : Nat) (beyond buffer : List Nat) : Decoded :=
  if buffer_size = 0 then .killed offset
  else .written offset buffer_size (extensionOf buffer beyond) buffer

/-- The container `generate_outline_font` writes for an empty input: the 65
bytes before the size field and the size 0. -/
def emptyContainer : List Nat :=
  generatedHeader.bytes ++ le32 0 ++ [0] ++ le32 1877690412 ++ le32 0 ++ le32 0

/-- The eight bytes `xor_key[0..7]` of line 73: the key word in memory order. -/
def xor_key (n : Nat) : List Nat := (List.range 8).map (keyByte n)

/-- The 64-bit rotation to the right in the words of the specification: bit
`i` of the result is bit `(i + r) mod 64` of `x`. -/
def rotr64 (x r : Nat) : Nat :=
  (List.range 64).foldl (fun acc i => acc + (if x.testBit ((i + r) % 64) then 2 ^ i else 0)) 0

/-! ## Facts about the transform -/

theorem keyByte_lt (n i : Nat) : keyByte n i < 256 := by
  unfold keyByte
  exact Nat.mod_lt _ (by decide)

theorem xorFrom_length (n : Nat) : ∀ (bs : List Nat) (j : Nat), (xorFrom n j bs).length = bs.length
  | [], _ => rfl
  | _ :: bs, j => by simp [xorFrom, xorFrom_length n bs (j + 1)]

theorem xorFrom_isBytes (n : Nat) : ∀ (bs : List Nat) (j : Nat), IsBytes (xorFrom n j bs)
  | [], _ => by intro b hb; simp [xorFrom] at hb
  | _ :: bs, j => by
    intro b hb
    simp only [xorFrom, List.mem_cons] at hb
    rcases hb with rfl | hb
    · exact Nat.mod_lt _ (by decide)
    · exact xorFrom_isBytes n bs (j + 1) b hb

theorem xor_byte_cancel (b k : Nat) (hb : b < 256) (hk : k < 256) :
    ((b ^^^ k) % 256 ^^^ k) % 256 = b := by
  have h1 : b ^^^ k < 2 ^ 8 := Nat.xor_lt_two_pow (by simpa using hb) (by simpa using hk)
  have h2 : (b ^^^ k) % 256 = b ^^^ k := Nat.mod_eq_of_lt (by simpa using h1)
  rw [h2, Nat.xor_assoc, Nat.xor_self, Nat.xor_zero]
  exact Nat.mod_eq_of_lt hb

theorem xorFrom_involutive (n : Nat) :
    ∀ (bs : List Nat) (j : Nat), IsBytes bs → xorFrom n j (xorFrom n j bs) = bs
  | [], _, _ => rfl
  | b :: bs, j, h => by
    have hb : b < 256 := h b (by simp)
    have hbs : IsBytes bs := fun x hx => h x (by simp [hx])
    simp only [xorFrom]
    rw [xor_byte_cancel b _ hb (keyByte_lt n _), xorFrom_involutive n bs (j + 1) hbs]

theorem xorFrom_getD (n : Nat) :
    ∀ (bs : List Nat) (j i : Nat), i < bs.length →
      (xorFrom n j bs).getD i 0 = (bs.getD i 0 ^^^ keyByte n ((j + i) % 8)) % 256
  | [], _, _, h => by simp at h
  | b :: bs, j, 0, _ => by simp [xorFrom]
  | b :: bs, j, i + 1, h => by
    have h1 : i < bs.length := by simpa using h
    have := xorFrom_getD n bs (j + 1) i h1
    simp only [xorFrom, List.getD_cons_succ]
    rw [this]
    congr 3
    omega

/-- Below `2^32` bytes the loop of lines 76-78 ends, and leaves the closed
form behind: with `pre` already done and `rest` to do. -/
theorem xorLoop_eq (size n : Nat) (hsize : size < 2 ^ 32) :
    ∀ (rest pre : List Nat) (j fuel : Nat), pre.length = j → j + rest.length = size →
      rest.length < fuel → xorLoop size n fuel j (pre ++ rest) = some (pre ++ xorFrom n j rest)
  | [], pre, j, fuel, hj, hs, hf => by
    obtain ⟨f, rfl⟩ : ∃ f, fuel = f + 1 := ⟨fuel - 1, by omega⟩
    have : ¬ j < size := by simp at hs; omega
    simp [xorLoop, this, xorFrom]
  | b :: bs, pre, j, fuel, hj, hs, hf => by
    obtain ⟨f, rfl⟩ : ∃ f, fuel = f + 1 := ⟨fuel - 1, by omega⟩
    simp only [List.length_cons] at hs hf
    have hlt : j < size := by omega
    have hmod : (j + 1) % 2 ^ 32 = j + 1 := Nat.mod_eq_of_lt (by omega)
    have hget : (pre ++ b :: bs).getD j 0 = b := by
      subst hj
      rw [List.getD_eq_getElem?_getD, List.getElem?_append_right (le_refl _)]
      simp
    have hset : (pre ++ b :: bs).set j ((b ^^^ keyByte n (j % 8)) % 256)
        = (pre ++ [(b ^^^ keyByte n (j % 8)) % 256]) ++ bs := by
      subst hj; simp
    simp only [xorLoop, hlt, if_true, hmod, hget, hset]
    rw [xorLoop_eq size n hsize bs (pre ++ [(b ^^^ keyByte n (j % 8)) % 256]) (j + 1) f
      (by simp [hj]) (by omega) (by omega)]
    simp [xorFrom]

/-- From `2^32` bytes on the counter `j` wraps before it reaches
`buffer.size()`: the loop of lines 76-78 has no result, whatever the fuel. -/
theorem xorLoop_diverges (size n : Nat) (hsize : 2 ^ 32 ≤ size) :
    ∀ (fuel j : Nat) (buf : List Nat), j < 2 ^ 32 → xorLoop size n fuel j buf = none
  | 0, _, _, _ => rfl
  | fuel + 1, j, buf, hj => by
    have hlt : j < size := by omega
    simp only [xorLoop, hlt, if_true]
    exact xorLoop_diverges size n hsize fuel _ _ (Nat.mod_lt _ (by decide))

theorem xor_crypt_eq (sh : Nat → Nat) (fuel : Nat) (B : List Nat)
    (hlen : B.length < 2 ^ 32) (hfuel : B.length < fuel) :
    xor_crypt sh fuel B = some (xorFrom (keyWord sh B.length) 0 B) := by
  have := xorLoop_eq B.length (keyWord sh B.length) hlen B [] 0 fuel rfl (by simp) hfuel
  simpa [xor_crypt] using this

theorem xor_crypt_none (sh : Nat → Nat) (fuel : Nat) (B : List Nat)
    (hlen : 2 ^ 32 ≤ B.length) : xor_crypt sh fuel B = none :=
  xorLoop_diverges B.length _ hlen fuel 0 B (by decide)

theorem keyWord_mod (sh : Nat → Nat) (size : Nat) : keyWord sh (size % 64) = keyWord sh size := by
  simp [keyWord]

/-! ## Facts about the stream and the locator -/

theorem getD_lt_of_isBytes (bs : List Nat) (hbs : IsBytes bs) (i : Nat) : bs.getD i 0 < 256 := by
  rw [List.getD_eq_getElem?_getD]
  by_cases hi : i < bs.length
  · rw [List.getElem?_eq_getElem hi]
    exact hbs _ (List.getElem_mem hi)
  · rw [List.getElem?_eq_none (by omega)]
    decide

theorem u32le_lt (bs : List Nat) (hbs : IsBytes bs) : u32le bs < 2 ^ 32 := by
  have h0 := getD_lt_of_isBytes bs hbs 0
  have h1 := getD_lt_of_isBytes bs hbs 1
  have h2 := getD_lt_of_isBytes bs hbs 2
  have h3 := getD_lt_of_isBytes bs hbs 3
  unfold u32le
  omega

theorem isBytes_drop (bs : List Nat) (hbs : IsBytes bs) (n : Nat) : IsBytes (bs.drop n) :=
  fun b hb => hbs b (List.mem_of_mem_drop hb)

theorem isBytes_take (bs : List Nat) (hbs : IsBytes bs) (n : Nat) : IsBytes (bs.take n) :=
  fun b hb => hbs b (List.mem_of_mem_take hb)

theorem u32le_take_append (bs tail : List Nat) (hlen : 4 ≤ bs.length) :
    u32le (bs.take 4 ++ tail) = u32le bs := by
  have key : ∀ i, i < 4 → (bs.take 4 ++ tail).getD i 0 = bs.getD i 0 := by
    intro i hi
    rw [List.getD_eq_getElem?_getD, List.getD_eq_getElem?_getD,
      List.getElem?_append_left (by rw [List.length_take]; omega), List.getElem?_take_of_lt hi]
  unfold u32le
  rw [key 0 (by decide), key 1 (by decide), key 2 (by decide), key 3 (by decide)]

theorem seekg_ok (data : List Nat) (pos off : Nat) :
    (IfStream.mk data pos false).seekg off = ⟨data, pos + off, false⟩ := by
  simp [IfStream.seekg]

/-- A `read<uint32_t>` that lies inside the file returns the four bytes at the
position and moves past them; the junk plays no part. -/
theorem read_u32_ok (data : List Nat) (pos junk : Nat) (hpos : pos + 4 ≤ data.length) :
    read_u32 ⟨data, pos, false⟩ junk = (u32le (data.drop pos), ⟨data, pos + 4, false⟩) := by
  have hl : ((data.drop pos).take 4).length = 4 := by
    rw [List.length_take, List.length_drop]; omega
  have hd : 4 ≤ (data.drop pos).length := by rw [List.length_drop]; omega
  simp only [read_u32, IfStream.read, Bool.false_eq_true, if_false, hl, Nat.lt_irrefl,
    decide_False, u32le_take_append _ _ hd]

/-- A buffer read that lies inside the file returns the bytes at the position. -/
theorem read_buffer_ok (data : List Nat) (pos n : Nat) (hpos : pos + n ≤ data.length) :
    ((IfStream.mk data pos false).read n (List.replicate n 0)).1 = (data.drop pos).take n := by
  have hl : ((data.drop pos).take n).length = n := by
    rw [List.length_take, List.length_drop]; omega
  simp [IfStream.read, hl]

theorem gate_open (h : FontHeader) (hbit : h.attr.testBit 0 = false) (htc : h.texture_count = 0) :
    ¬ (h.attr &&& 1 ≠ 0 ∨ h.texture_count ≠ 0) := by
  rw [Nat.testBit_zero] at hbit
  simp only [decide_eq_false_iff_not] at hbit
  rintro (h1 | h1)
  · rw [Nat.and_one_is_mod] at h1
    omega
  · exact h1 htc

/-- A buffer read that runs into the end of the file returns the bytes that
are there and leaves the rest of the zero-filled buffer as it is. -/
theorem read_buffer_short (data : List Nat) (pos n : Nat) (hpos : pos ≤ data.length)
    (hshort : data.length < pos + n) :
    ((IfStream.mk data pos false).read n (List.replicate n 0)).1
      = data.drop pos ++ List.replicate (n - (data.length - pos)) 0 := by
  have htake : (data.drop pos).take n = data.drop pos :=
    List.take_of_length_le (by rw [List.length_drop]; omega)
  simp [IfStream.read, htake]

/-- The locator on a processable header and a stream that holds the skipped
regions and the three fields: the offset printed, the size read, and the
buffer read at that offset. -/
theorem process_fields (sh : Nat → Nat) (fuel : Nat) (junk : Nat → Nat) (beyond : List Nat)
    (data : List Nat) (h : FontHeader)
    (hbit : h.attr.testBit 0 = false) (htc : h.texture_count = 0)
    (hsum : h.char_count + h.unk0 < 2 ^ 32)
    (hp : texPathLen data h < 2 ^ 32 - 1)
    (hfields : sizeFieldOffset h (texPathLen data h) + 4 ≤ data.length) :
    process_outline_font sh fuel junk beyond ⟨data, 52, false⟩ h =
      (xor_crypt sh fuel ((IfStream.mk data (sizeFieldOffset h (texPathLen data h) + 4) false).read
          (u32le (data.drop (sizeFieldOffset h (texPathLen data h))))
          (List.replicate (u32le (data.drop (sizeFieldOffset h (texPathLen data h)))) 0)).1).map
        (finish (sizeFieldOffset h (texPathLen data h) + 4)
          (u32le (data.drop (sizeFieldOffset h (texPathLen data h)))) beyond) := by
  have hgate := gate_open h hbit htc
  have hloop : ¬ (h.attr >>> 3 &&& 1 = 0 ∧ h.texture_count ≠ 0) := fun hh => hh.2 htc
  generalize hP : texPathLen data h = p at *
  have hX : sizeFieldOffset h p
      = 52 + h.descent_count * 4 + 4 + (p + 1) + (h.char_count + h.unk0) * 20 + 4 + 4 := by
    unfold sizeFieldOffset; omega
  have hP2 : u32le (data.drop (52 + h.descent_count * 4)) = p := by
    rw [← hP, texPathLen, Nat.mul_comm]
  rw [hX] at hfields ⊢
  simp only [process_outline_font, hgate, hloop, if_false, seekg_ok]
  rw [read_u32_ok data _ (junk 0) (by omega)]
  simp only [hP2, seekg_ok, Nat.mod_eq_of_lt (show p + 1 < 2 ^ 32 by omega),
    Nat.mod_eq_of_lt hsum]
  rw [read_u32_ok data _ (junk 1) (by omega)]
  simp only []
  rw [read_u32_ok data _ (junk 2) (by omega)]
  simp only []
  rw [read_u32_ok data _ (junk 3) (by omega)]
  simp only [IfStream.tellg, Bool.false_eq_true, if_false]
  rfl

/-- The locator when the payload is there in full. -/
theorem process_located (sh : Nat → Nat) (fuel : Nat) (junk : Nat → Nat) (beyond : List Nat)
    (data : List Nat) (h : FontHeader)
    (hbit : h.attr.testBit 0 = false) (htc : h.texture_count = 0)
    (hsum : h.char_count + h.unk0 < 2 ^ 32)
    (hp : texPathLen data h < 2 ^ 32 - 1)
    (hsz : u32le (data.drop (sizeFieldOffset h (texPathLen data h))) < 2 ^ 32)
    (hlong : sizeFieldOffset h (texPathLen data h) + 4
      + u32le (data.drop (sizeFieldOffset h (texPathLen data h))) ≤ data.length)
    (hfuel : u32le (data.drop (sizeFieldOffset h (texPathLen data h))) < fuel) :
    process_outline_font sh fuel junk beyond ⟨data, 52, false⟩ h =
      some (finish (sizeFieldOffset h (texPathLen data h) + 4)
        (u32le (data.drop (sizeFieldOffset h (texPathLen data h)))) beyond
        (xorFrom (keyWord sh (u32le (data.drop (sizeFieldOffset h (texPathLen data h)))))
          0 ((data.drop (sizeFieldOffset h (texPathLen data h) + 4)).take
            (u32le (data.drop (sizeFieldOffset h (texPathLen data h))))))) := by
  rw [process_fields sh fuel junk beyond data h hbit htc hsum hp (by omega)]
  generalize sizeFieldOffset h (texPathLen data h) = X at *
  generalize u32le (data.drop X) = bsz at *
  have hlen : ((data.drop (X + 4)).take bsz).length = bsz := by
    rw [List.length_take, List.length_drop]; omega
  have hxor := xor_crypt_eq sh fuel ((data.drop (X + 4)).take bsz)
    (by rw [hlen]; exact hsz) (by rw [hlen]; exact hfuel)
  rw [hlen] at hxor
  rw [read_buffer_ok data (X + 4) bsz hlong, hxor, Option.map_some']

/-- The locator when the file ends inside the payload. -/
theorem process_short (sh : Nat → Nat) (fuel : Nat) (junk : Nat → Nat) (beyond : List Nat)
    (data : List Nat) (h : FontHeader)
    (hbit : h.attr.testBit 0 = false) (htc : h.texture_count = 0)
    (hsum : h.char_count + h.unk0 < 2 ^ 32)
    (hp : texPathLen data h < 2 ^ 32 - 1)
    (hsz : u32le (data.drop (sizeFieldOffset h (texPathLen data h))) < 2 ^ 32)
    (hfields : sizeFieldOffset h (texPathLen data h) + 4 ≤ data.length)
    (hshort : data.length < sizeFieldOffset h (texPathLen data h) + 4
      + u32le (data.drop (sizeFieldOffset h (texPathLen data h))))
    (hfuel : u32le (data.drop (sizeFieldOffset h (texPathLen data h))) < fuel) :
    process_outline_font sh fuel junk beyond ⟨data, 52, false⟩ h =
      some (finish (sizeFieldOffset h (texPathLen data h) + 4)
        (u32le (data.drop (sizeFieldOffset h (texPathLen data h)))) beyond
        (xorFrom (keyWord sh (u32le (data.drop (sizeFieldOffset h (texPathLen data h)))))
          0 (data.drop (sizeFieldOffset h (texPathLen data h) + 4) ++
            List.replicate (u32le (data.drop (sizeFieldOffset h (texPathLen data h)))
              - (data.length - (sizeFieldOffset h (texPathLen data h) + 4))) 0))) := by
  rw [process_fields sh fuel junk beyond data h hbit htc hsum hp hfields]
  generalize sizeFieldOffset h (texPathLen data h) = X at *
  generalize u32le (data.drop X) = bsz at *
  have hlen : (data.drop (X + 4) ++ List.replicate (bsz - (data.length - (X + 4))) 0).length
      = bsz := by
    rw [List.length_append, List.length_drop, List.length_replicate]; omega
  have hxor := xor_crypt_eq sh fuel
    (data.drop (X + 4) ++ List.replicate (bsz - (data.length - (X + 4))) 0)
    (by rw [hlen]; exact hsz) (by rw [hlen]; exact hfuel)
  rw [hlen] at hxor
  rw [read_buffer_short data (X + 4) bsz hfields hshort, hxor, Option.map_some']

theorem u32le_le32 (n : Nat) (hn : n < 2 ^ 32) (tail : List Nat) :
    u32le (le32 n ++ tail) = n := by
  simp only [u32le, le32, List.cons_append, List.getD_cons_zero, List.getD_cons_succ]
  omega

theorem read_all (B : List Nat) :
    ((IfStream.opened B).read B.length (List.replicate B.length 0)).1 = B := by
  have := read_buffer_ok B 0 B.length (by omega)
  simpa [IfStream.opened] using this

theorem generate_eq (sh : Nat → Nat) (fuel : Nat) (B : List Nat)
    (hlen : B.length < 2 ^ 32) (hfuel : B.length < fuel) :
    generate_outline_font sh fuel (IfStream.opened B) B.length =
      some (generatedPrefix ++ le32 B.length ++ xorFrom (keyWord sh B.length) 0 B) := by
  simp only [generate_outline_font, read_all, xor_crypt_eq sh fuel B hlen hfuel, xorFrom_length,
    Nat.mod_eq_of_lt hlen, generatedPrefix, Option.map_some']

theorem u32le_le32_cons (n : Nat) (hn : n < 2 ^ 32) (tail : List Nat) :
    u32le (n % 256 :: n / 256 % 256 :: n / 65536 % 256 :: n / 16777216 % 256 :: tail) = n := by
  simp only [u32le, List.getD_cons_zero, List.getD_cons_succ]
  omega

/-- Reading back the memory image of a well-formed header gives the header. -/
theorem ofBytes_bytes (h : FontHeader) (hwf : h.WF) (tail : List Nat) :
    FontHeader.ofBytes (h.bytes ++ tail) = h := by
  obtain ⟨magic, version, attr, suffix, type, size, texture_count, char_count, unk0,
    descent_count, max_ascent, max_descent, unk1⟩ := h
  obtain ⟨hm, -, h1, h2, h3, h4, h5, h6, h7, h8, h9, h10, h11, h12⟩ := hwf
  simp only at hm h1 h2 h3 h4 h5 h6 h7 h8 h9 h10 h11 h12
  match magic, hm with
  | [a, b, c, d], _ =>
    simp only [FontHeader.ofBytes, FontHeader.bytes, le32, List.cons_append, List.nil_append,
      List.append_assoc, List.drop_succ_cons, List.drop_zero, List.take_succ_cons, List.take_zero,
      u32le_le32_cons _ h1, u32le_le32_cons _ h2, u32le_le32_cons _ h3, u32le_le32_cons _ h4,
      u32le_le32_cons _ h5, u32le_le32_cons _ h6, u32le_le32_cons _ h7, u32le_le32_cons _ h8,
      u32le_le32_cons _ h9, u32le_le32_cons _ h10, u32le_le32_cons _ h11, u32le_le32_cons _ h12]

theorem bytes_length (h : FontHeader) (hm : h.magic.length = 4) : h.bytes.length = 52 := by
  simp [FontHeader.bytes, le32, hm]

theorem read_header_generated (rest : List Nat) (junkHeader : FontHeader) :
    read_header (IfStream.opened (generatedPrefix ++ rest)) junkHeader
      = (generatedHeader, ⟨generatedPrefix ++ rest, 52, false⟩) := by
  have htake : ((generatedPrefix ++ rest).drop 0).take 52 = generatedHeader.bytes := rfl
  have hlen : generatedHeader.bytes.length = 52 := rfl
  simp only [read_header, IfStream.read, IfStream.opened, Bool.false_eq_true, if_false, htake, hlen,
    sizeofFontHeader, Nat.lt_irrefl, decide_False, Nat.zero_add,
    ofBytes_bytes generatedHeader (by decide)]

/-- Decoding what `generate_outline_font` wrote for `B`. -/
theorem process_generated (sh : Nat → Nat) (fuel : Nat) (junk : Nat → Nat) (beyond : List Nat)
    (B : List Nat) (hB : IsBytes B) (hlen : B.length < 2 ^ 32) (hfuel : B.length < fuel) :
    process_outline_font sh fuel junk beyond
      ⟨generatedPrefix ++ le32 B.length ++ xorFrom (keyWord sh B.length) 0 B, 52, false⟩
      generatedHeader = some (finish 69 B.length beyond B) := by
  generalize hD : generatedPrefix ++ le32 B.length ++ xorFrom (keyWord sh B.length) 0 B = data
  have hP : texPathLen data generatedHeader = 0 := by rw [← hD]; rfl
  have hX : sizeFieldOffset generatedHeader 0 = 65 := rfl
  have hdrop : data.drop 65 = le32 B.length ++ xorFrom (keyWord sh B.length) 0 B := by
    rw [← hD]; rfl
  have hdrop4 : data.drop (65 + 4) = xorFrom (keyWord sh B.length) 0 B := by
    rw [← List.drop_drop, hdrop]; rfl
  have hS : u32le (data.drop 65) = B.length := by rw [hdrop, u32le_le32 _ hlen]
  have hL : data.length = 69 + B.length := by
    rw [← hD]
    simp only [List.length_append, xorFrom_length]
    rfl
  have key := process_located sh fuel junk beyond data generatedHeader rfl rfl (by decide)
    (by rw [hP]; decide) (by rw [hP, hX, hS]; exact hlen) (by rw [hP, hX, hS, hL])
    (by rw [hP, hX, hS]; exact hfuel)
  rw [hP, hX, hS, hdrop4] at key
  rw [key]
  have htake : (xorFrom (keyWord sh B.length) 0 B).take B.length
      = xorFrom (keyWord sh B.length) 0 B :=
    List.take_of_length_le (by rw [xorFrom_length])
  rw [htake, xorFrom_involutive _ _ _ hB]

/-! ## Facts about short reads -/

theorem read_data (file : IfStream) (n : Nat) (dst : List Nat) :
    (file.read n dst).2.data = file.data := by
  unfold IfStream.read
  split <;> rfl

theorem seekg_data (file : IfStream) (off : Nat) : (file.seekg off).data = file.data := by
  unfold IfStream.seekg
  split <;> rfl

theorem read_u32_data (file : IfStream) (junk : Nat) : (read_u32 file junk).2.data = file.data :=
  read_data file 4 _

theorem skipNames_data (junk : Nat → Nat) :
    ∀ (count i : Nat) (file : IfStream), (skipNames junk count i file).data = file.data
  | 0, _, _ => rfl
  | count + 1, i, file => by
    rw [skipNames, skipNames_data junk count, seekg_data, read_u32_data]

theorem isBytes_append (xs ys : List Nat) (hx : IsBytes xs) (hy : IsBytes ys) :
    IsBytes (xs ++ ys) := by
  intro b hb
  rcases List.mem_append.mp hb with h | h
  · exact hx b h
  · exact hy b h

theorem isBytes_le32 (v : Nat) : IsBytes (le32 v) := by
  intro b hb
  simp only [le32, List.mem_cons, List.mem_singleton, List.not_mem_nil, or_false] at hb
  rcases hb with rfl | rfl | rfl | rfl <;> exact Nat.mod_lt _ (by decide)

theorem read_isBytes (file : IfStream) (n : Nat) (dst : List Nat)
    (hf : IsBytes file.data) (hd : IsBytes dst) : IsBytes (file.read n dst).1 := by
  unfold IfStream.read
  split
  · exact hd
  · exact isBytes_append _ _ (isBytes_take _ (isBytes_drop _ hf _) _) (isBytes_drop _ hd _)

/-- Whatever a `read<uint32_t>` returns, read or left over, fits 32 bits. -/
theorem read_u32_lt (file : IfStream) (junk : Nat) (hf : IsBytes file.data) :
    (read_u32 file junk).1 < 2 ^ 32 :=
  u32le_lt _ (read_isBytes file 4 _ hf (isBytes_le32 junk))

/-- A buffer keeps its size when it is read into, in full, in part or not at
all. -/
theorem read_length (file : IfStream) (n : Nat) (dst : List Nat) (hd : dst.length = n) :
    (file.read n dst).1.length = n := by
  unfold IfStream.read
  split
  · exact hd
  · simp only [List.length_append, List.length_take, List.length_drop, hd]
    omega

theorem extensionOf_four_le (buffer beyond : List Nat) (hlen : 4 ≤ buffer.length) :
    extensionOf buffer beyond = (if buffer.take 4 = [79, 84, 84, 79] then ".otf" else ".ttf") := by
  have : (buffer ++ beyond).take 4 = buffer.take 4 := List.take_append_of_le_length hlen
  simp [extensionOf, check_magic, magicOTTO, this]

/-! ## The claims -/

/-- C1, as stated, fails: a buffer of `2^32` bytes is a buffer, and on it the
counter `j` of line 76 never reaches `buffer.size()`, so with no amount of fuel
does applying `xor_crypt` twice return the buffer. -/
theorem xor_crypt_roundtrip_fails_at_4GiB :
    ¬ ∃ fuel, (xor_crypt shMasked fuel (List.replicate (2 ^ 32) 0)).bind (xor_crypt shMasked fuel)
        = some (List.replicate (2 ^ 32) 0) := by
  rintro ⟨fuel, h⟩
  have hlen : 2 ^ 32 ≤ (List.replicate (2 ^ 32) 0).length := (List.length_replicate _ _).ge
  rw [xor_crypt_none shMasked fuel _ hlen] at h
  exact Option.noConfusion h

/-- C1, amended: for every byte buffer `B` shorter than `2^32` bytes (the empty
buffer and the multiples of 64 included), whatever the shift by 64 yields,
`xor_crypt` returns as soon as the fuel exceeds the length, and applying it
twice returns `B` unchanged. -/
theorem xor_crypt_roundtrip (sh : Nat → Nat) (fuel : Nat) (B : List Nat)
    (hB : IsBytes B) (hlen : B.length < 2 ^ 32) (hfuel : B.length < fuel) :
    (xor_crypt sh fuel B).bind (xor_crypt sh fuel) = some B := by
  rw [xor_crypt_eq sh fuel B hlen hfuel, Option.some_bind,
    xor_crypt_eq sh fuel _ (by rw [xorFrom_length]; exact hlen) (by rw [xorFrom_length]; exact hfuel),
    xorFrom_length, xorFrom_involutive _ _ _ hB]

/-- C1, amended, at the 3-byte buffer `1, 2, 3` and at the empty buffer. -/
theorem xor_crypt_roundtrip_witness :
    (xor_crypt shMasked 4 [1, 2, 3]).bind (xor_crypt shMasked 4) = some [1, 2, 3] ∧
    (xor_crypt shZero 1 []).bind (xor_crypt shZero 1) = some [] :=
  ⟨xor_crypt_roundtrip shMasked 4 [1, 2, 3] (by decide) (by decide) (by decide),
   xor_crypt_roundtrip shZero 1 [] (by decide) (by decide) (by decide)⟩

/-- C3, as stated, fails: on a buffer of `2^32 + 1` bytes `xor_crypt` returns
no buffer at all, of that length or another. -/
theorem xor_crypt_no_output_above_4GiB :
    ¬ ∃ fuel out, xor_crypt shZero fuel (List.replicate (2 ^ 32 + 1) 255) = some out := by
  rintro ⟨fuel, out, h⟩
  have hlen : 2 ^ 32 ≤ (List.replicate (2 ^ 32 + 1) 255).length :=
    (List.length_replicate _ _).ge.trans' (Nat.le_succ _)
  rw [xor_crypt_none shZero fuel _ hlen] at h
  exact Option.noConfusion h

/-- C3, amended: for every byte buffer `B` of length `L < 2^32`, `xor_crypt`
returns a buffer of the same length in which byte `j` is `B[j] XOR key[j mod 8]`,
where `key[i] = (W >> 8*i) & 0xFF` for the one key word `W` computed from
`L mod 64`. -/
theorem xor_crypt_bytes (sh : Nat → Nat) (fuel : Nat) (B : List Nat)
    (hB : IsBytes B) (hlen : B.length < 2 ^ 32) (hfuel : B.length < fuel) :
    ∃ out, xor_crypt sh fuel B = some out ∧ out.length = B.length ∧
      ∀ j, j < B.length →
        out.getD j 0 = B.getD j 0 ^^^ (keyWord sh (B.length % 64) >>> (8 * (j % 8)) &&& 0xFF) := by
  refine ⟨_, xor_crypt_eq sh fuel B hlen hfuel, xorFrom_length _ _ _, ?_⟩
  intro j hj
  have hb : B.getD j 0 < 256 := by
    rw [List.getD_eq_getElem?_getD, List.getElem?_eq_getElem hj]
    exact hB _ (List.getElem_mem hj)
  have hk : keyByte (keyWord sh B.length) (j % 8) < 2 ^ 8 := keyByte_lt _ _
  have hx := Nat.xor_lt_two_pow (show B.getD j 0 < 2 ^ 8 from hb) hk
  rw [xorFrom_getD _ _ _ _ hj, Nat.zero_add, Nat.mod_eq_of_lt hx, keyWord_mod]
  have : (255 : Nat) = 2 ^ 8 - 1 := by decide
  simp only [keyByte]
  rw [this, Nat.and_pow_two_sub_one_eq_mod]

/-- C3, amended, at the 10-byte buffer `1, ..., 10`. -/
theorem xor_crypt_bytes_witness :
    ∃ out, xor_crypt shMasked 11 [1, 2, 3, 4, 5, 6, 7, 8, 9, 10] = some out ∧
      out.length = 10 ∧
      ∀ j, j < 10 →
        out.getD j 0 = [1, 2, 3, 4, 5, 6, 7, 8, 9, 10].getD j 0
          ^^^ (keyWord shMasked (10 % 64) >>> (8 * (j % 8)) &&& 0xFF) :=
  xor_crypt_bytes shMasked 11 [1, 2, 3, 4, 5, 6, 7, 8, 9, 10] (by decide) (by decide) (by decide)

theorem check_magic_GFD (m : List Nat) (hm : m.length = 4) :
    check_magic m magicGFD = true ↔ m = [71, 70, 68, 0] := by
  have : m.take 4 = m := List.take_of_length_le (by omega)
  simp [check_magic, magicGFD, this]

/-- C4: header validation is a total decision list. A magic other than
`'G','F','D',0` gives `InvalidFormat` whatever the version and type; otherwise
a version other than 135432 gives `UnsupportedVersion` whatever the type;
otherwise a type other than `Outlined` (3) gives `UnsupportedType`; otherwise
the header is accepted. So a header is accepted exactly when the three fields
match, and the verdict is the same for two headers that agree on them. -/
theorem validate_decision_list (h : FontHeader) (hm : h.magic.length = 4) :
    (h.magic ≠ [71, 70, 68, 0] → validate h = some .invalidFormat) ∧
    (h.magic = [71, 70, 68, 0] → h.version ≠ 135432 → validate h = some .unsupportedVersion) ∧
    (h.magic = [71, 70, 68, 0] → h.version = 135432 → h.type ≠ 3 →
      validate h = some .unsupportedType) ∧
    (validate h = none ↔ h.magic = [71, 70, 68, 0] ∧ h.version = 135432 ∧ h.type = 3) ∧
    (∀ g : FontHeader, g.magic = h.magic → g.version = h.version → g.type = h.type →
      validate g = validate h) := by
  have hc := check_magic_GFD h.magic hm
  refine ⟨?_, ?_, ?_, ?_, ?_⟩
  · intro h1
    have : ¬ check_magic h.magic magicGFD = true := fun hh => h1 (hc.mp hh)
    simp [validate, this]
  · intro h1 h2
    simp [validate, hc.mpr h1, h2]
  · intro h1 h2 h3
    simp [validate, hc.mpr h1, h2, FontType.code, h3]
  · constructor
    · intro hv
      by_cases h1 : check_magic h.magic magicGFD = true
      · by_cases h2 : h.version = 135432
        · by_cases h3 : h.type = 3
          · exact ⟨hc.mp h1, h2, h3⟩
          · simp [validate, h1, h2, FontType.code, h3] at hv
        · simp [validate, h1, h2] at hv
      · simp [validate, h1] at hv
    · rintro ⟨h1, h2, h3⟩
      simp [validate, hc.mpr h1, h2, FontType.code, h3]
  · intro g g1 g2 g3
    simp [validate, g1, g2, g3]

/-- C4 at a header with the right magic and version 1: the verdict is
`UnsupportedVersion`, though its type (0, `Textured`) is unsupported too. -/
theorem validate_decision_list_witness :
    validate { generatedHeader with version := 1, type := 0 } = some .unsupportedVersion :=
  (validate_decision_list { generatedHeader with version := 1, type := 0 } (by decide)).2.1
    (by decide) (by decide)

/-- C5: `process_outline_font` takes the early return `NotProcessable` exactly
when bit 0 of `attr` is set or `texture_count` is not zero; with
`texture_count = 0` and bit 0 clear it does not, whatever the other bits of
`attr` and every other input are. -/
theorem gate_iff (sh : Nat → Nat) (fuel : Nat) (junk : Nat → Nat) (beyond : List Nat)
    (file : IfStream) (h : FontHeader) :
    ((∃ f, process_outline_font sh fuel junk beyond file h = some (.notProcessable f)) ↔
      (h.attr.testBit 0 = true ∨ h.texture_count ≠ 0)) ∧
    ((h.attr.testBit 0 = true ∨ h.texture_count ≠ 0) →
      process_outline_font sh fuel junk beyond file h = some (.notProcessable file)) := by
  have hbit : h.attr.testBit 0 = true ↔ h.attr &&& 1 ≠ 0 := by
    rw [Nat.testBit_zero, Nat.and_one_is_mod]
    simp
  have hyes : (h.attr.testBit 0 = true ∨ h.texture_count ≠ 0) →
      process_outline_font sh fuel junk beyond file h = some (.notProcessable file) := by
    intro hg
    have hg2 : h.attr &&& 1 ≠ 0 ∨ h.texture_count ≠ 0 := hg.imp hbit.mp id
    simp only [process_outline_font, hg2, if_true]
  refine ⟨⟨?_, fun hg => ⟨file, hyes hg⟩⟩, hyes⟩
  rintro ⟨f, hf⟩
  by_contra hg
  have hg2 : ¬ (h.attr &&& 1 ≠ 0 ∨ h.texture_count ≠ 0) := fun hh => hg (hh.imp hbit.mpr id)
  simp only [process_outline_font, hg2, if_false] at hf
  obtain ⟨b, -, hb⟩ := Option.map_eq_some'.mp hf
  split_ifs at hb <;> cases hb

/-- Encode followed by Decode on an input that is not empty and shorter than
`2^32` bytes: the `.ttf` run writes a container, the header read back from it
passes the three checks, and the `.gfd` run passes the gate and writes a
payload equal to `B`. -/
theorem encode_then_decode (sh : Nat → Nat) (fuel : Nat) (junkHeader : FontHeader)
    (junk : Nat → Nat) (beyond : List Nat) (B : List Nat)
    (hB : IsBytes B) (hne : B ≠ []) (hlen : B.length < 2 ^ 32) (hfuel : B.length < fuel) :
    ∃ gfd,
      main sh fuel junkHeader junk beyond 2 ".ttf" B = some (0, .generated gfd) ∧
      validate (read_header (IfStream.opened gfd) junkHeader).1 = none ∧
      main sh fuel junkHeader junk beyond 2 ".gfd" gfd
        = some (0, .processed (.written 69 B.length (extensionOf B beyond) B)) := by
  refine ⟨generatedPrefix ++ le32 B.length ++ xorFrom (keyWord sh B.length) 0 B, ?_, ?_, ?_⟩
  · simp [main, generate_eq sh fuel B hlen hfuel]
  · rw [List.append_assoc, read_header_generated]
    rfl
  · have hv : validate generatedHeader = none := rfl
    have hext : ¬ ((".gfd" : String) = ".otf" ∨ (".gfd" : String) = ".ttf") := by decide
    have hrd := read_header_generated (le32 B.length ++ xorFrom (keyWord sh B.length) 0 B) junkHeader
    rw [← List.append_assoc] at hrd
    have hpos : B.length ≠ 0 := fun h0 => hne (List.length_eq_zero.mp h0)
    unfold main
    rw [if_neg (by decide), if_neg hext]
    simp only [hrd, hv, process_generated sh fuel junk beyond B hB hlen hfuel, Option.map_some',
      finish, hpos, if_false, exitStatus]

/-- C2 at the empty input: the `.ttf` run on an empty file writes the 69-byte
`emptyContainer`; its header passes the three checks and the gate; Decode
reads the size 0 at offset 65, and at line 113 the `memcmp` on the null
`data()` of the empty buffer kills the run: no payload is written. -/
theorem empty_input_decode_killed :
    main shMasked 1 zeroHeader (fun _ => 0) [] 2 ".ttf" [] = some (0, .generated emptyContainer) ∧
    emptyContainer.length = 69 ∧
    validate (read_header (IfStream.opened emptyContainer) zeroHeader).1 = none ∧
    process_outline_font shMasked 1 (fun _ => 0) [] ⟨emptyContainer, 52, false⟩ generatedHeader
      = some (.killed 69) ∧
    (main shMasked 1 zeroHeader (fun _ => 0) [] 2 ".gfd" emptyContainer).map Prod.snd
      = some (.processed (.killed 69)) := by
  refine ⟨?_, ?_, ?_, ?_, ?_⟩ <;> rfl

/-- C6: for every processable header and every container that holds all the
fields, with `p` the texture-path length read from the stream,
`char_count + unk0 < 2^32` and `p < 2^32 - 1`, Decode reads `buffer_size` at
offset `52 + 4*descent_count + 4 + (p + 1) + 20*(char_count + unk0) + 8`, starts
the payload 4 bytes behind it, and transforms exactly the `buffer_size` bytes
found there: the bytes it writes are `xor_crypt` of those bytes, and for
`buffer_size = 0`, where the run is killed at line 113, the offset it printed
is that offset all the same. -/
theorem decode_reads_size_at_offset (sh : Nat → Nat) (fuel : Nat) (junk : Nat → Nat)
    (beyond : List Nat) (data : List Nat) (h : FontHeader)
    (hdata : IsBytes data)
    (hbit : h.attr.testBit 0 = false) (htc : h.texture_count = 0)
    (hsum : h.char_count + h.unk0 < 2 ^ 32)
    (hp : texPathLen data h < 2 ^ 32 - 1)
    (hlong : sizeFieldOffset h (texPathLen data h) + 4
      + u32le (data.drop (sizeFieldOffset h (texPathLen data h))) ≤ data.length)
    (hfuel : u32le (data.drop (sizeFieldOffset h (texPathLen data h))) < fuel) :
    ∃ out,
      xor_crypt sh fuel ((data.drop (sizeFieldOffset h (texPathLen data h) + 4)).take
        (u32le (data.drop (sizeFieldOffset h (texPathLen data h))))) = some out ∧
      process_outline_font sh fuel junk beyond ⟨data, 52, false⟩ h
        = some (if u32le (data.drop (sizeFieldOffset h (texPathLen data h))) = 0 then
            .killed (sizeFieldOffset h (texPathLen data h) + 4)
          else
            .written (sizeFieldOffset h (texPathLen data h) + 4)
              (u32le (data.drop (sizeFieldOffset h (texPathLen data h))))
              (extensionOf out beyond) out) := by
  have hsz := u32le_lt _ (isBytes_drop data hdata (sizeFieldOffset h (texPathLen data h)))
  have hloc := process_located sh fuel junk beyond data h hbit htc hsum hp hsz hlong hfuel
  have hlen : ((data.drop (sizeFieldOffset h (texPathLen data h) + 4)).take
      (u32le (data.drop (sizeFieldOffset h (texPathLen data h))))).length
      = u32le (data.drop (sizeFieldOffset h (texPathLen data h))) := by
    rw [List.length_take, List.length_drop]; omega
  have hx := xor_crypt_eq sh fuel ((data.drop (sizeFieldOffset h (texPathLen data h) + 4)).take
      (u32le (data.drop (sizeFieldOffset h (texPathLen data h)))))
    (by rw [hlen]; exact hsz) (by rw [hlen]; exact hfuel)
  rw [hlen] at hx
  exact ⟨_, hx, hloc⟩

set_option maxRecDepth 100000

/-- C6 at `char_count = 10`, `unk0 = 5`, `descent_count = 3` and an empty
texture path: the size field lies at offset 377. -/
theorem decode_reads_size_at_offset_witness :
    sizeFieldOffset sampleHeader (texPathLen sampleContainer sampleHeader) = 377 ∧
    ∃ out,
      xor_crypt shMasked 9 ((sampleContainer.drop
          (sizeFieldOffset sampleHeader (texPathLen sampleContainer sampleHeader) + 4)).take
        (u32le (sampleContainer.drop
          (sizeFieldOffset sampleHeader (texPathLen sampleContainer sampleHeader))))) = some out ∧
      process_outline_font shMasked 9 (fun _ => 0) [] ⟨sampleContainer, 52, false⟩ sampleHeader
        = some (if u32le (sampleContainer.drop
              (sizeFieldOffset sampleHeader (texPathLen sampleContainer sampleHeader))) = 0 then
            .killed (sizeFieldOffset sampleHeader (texPathLen sampleContainer sampleHeader) + 4)
          else
            .written (sizeFieldOffset sampleHeader (texPathLen sampleContainer sampleHeader) + 4)
              (u32le (sampleContainer.drop
                (sizeFieldOffset sampleHeader (texPathLen sampleContainer sampleHeader))))
              (extensionOf out []) out) :=
  ⟨by decide,
   decode_reads_size_at_offset shMasked 9 (fun _ => 0) [] sampleContainer sampleHeader
    (by decide) (by decide) (by decide) (by decide) (by decide) (by decide) (by decide)⟩

/-- C7: for every input `B` of length `L < 2^32`, Encode writes `69 + L` bytes:
the 52-byte little-endian image of the header with magic `'G','F','D',0`,
version 135432, attr 12, suffix 3 (`ID_HQ`), type 3 (`Outlined`), size 32, the
four counts zero and the three fixed metrics; a 4-byte zero length; a zero
byte; the 32-bit value 1877690412; a 32-bit zero; `L` in 32 bits, lowest byte
first; and `xor_crypt(B)`. -/
theorem generate_layout (sh : Nat → Nat) (fuel : Nat) (B : List Nat)
    (hlen : B.length < 2 ^ 32) (hfuel : B.length < fuel) :
    ∃ enc gfd,
      xor_crypt sh fuel B = some enc ∧
      generate_outline_font sh fuel (IfStream.opened B) B.length = some gfd ∧
      gfd.length = 69 + B.length ∧
      gfd = [71, 70, 68, 0, 8, 17, 2, 0, 12, 0, 0, 0, 3, 0, 0, 0, 3, 0, 0, 0, 32, 0, 0, 0,
             0, 0, 0, 0, 0, 0, 0, 0, 0, 0, 0, 0, 0, 0, 0, 0,
             55, 137, 1, 66, 205, 204, 2, 66, 74, 12, 66, 65]
            ++ [0, 0, 0, 0] ++ [0] ++ [44, 72, 235, 111] ++ [0, 0, 0, 0]
            ++ [B.length % 256, B.length / 256 % 256, B.length / 65536 % 256,
                B.length / 16777216 % 256]
            ++ enc ∧
      FontHeader.ofBytes gfd =
        { magic := [71, 70, 68, 0], version := 135432, attr := 12, suffix := TexSuffix.ID_HQ.code,
          type := FontType.Outlined.code, size := 32, texture_count := 0, char_count := 0,
          unk0 := 0, descent_count := 0, max_ascent := 0x42018937, max_descent := 0x4202cccd,
          unk1 := 0x41420c4a } := by
  refine ⟨_, _, xor_crypt_eq sh fuel B hlen hfuel, generate_eq sh fuel B hlen hfuel, ?_, ?_, ?_⟩
  · simp only [List.length_append, xorFrom_length]
    rfl
  · rfl
  · rw [generatedPrefix]
    simp only [List.append_assoc]
    exact ofBytes_bytes generatedHeader (by decide) _

/-- C7 at the 3-byte input `79, 84, 84`. -/
theorem generate_layout_witness :
    ∃ enc gfd,
      xor_crypt shMasked 4 [79, 84, 84] = some enc ∧
      generate_outline_font shMasked 4 (IfStream.opened [79, 84, 84]) 3 = some gfd ∧
      gfd.length = 69 + 3 ∧
      gfd = [71, 70, 68, 0, 8, 17, 2, 0, 12, 0, 0, 0, 3, 0, 0, 0, 3, 0, 0, 0, 32, 0, 0, 0,
             0, 0, 0, 0, 0, 0, 0, 0, 0, 0, 0, 0, 0, 0, 0, 0,
             55, 137, 1, 66, 205, 204, 2, 66, 74, 12, 66, 65]
            ++ [0, 0, 0, 0] ++ [0] ++ [44, 72, 235, 111] ++ [0, 0, 0, 0]
            ++ [3 % 256, 3 / 256 % 256, 3 / 65536 % 256, 3 / 16777216 % 256]
            ++ enc ∧
      FontHeader.ofBytes gfd =
        { magic := [71, 70, 68, 0], version := 135432, attr := 12, suffix := TexSuffix.ID_HQ.code,
          type := FontType.Outlined.code, size := 32, texture_count := 0, char_count := 0,
          unk0 := 0, descent_count := 0, max_ascent := 0x42018937, max_descent := 0x4202cccd,
          unk1 := 0x41420c4a } :=
  generate_layout shMasked 4 [79, 84, 84] (by decide) (by decide)

/-- C8 at a payload shorter than four bytes: the container Encode writes for
`'O','T','T'` decodes to those three bytes, and line 113 compares four bytes
all the same. With `'O'` in memory behind the buffer the extension is `.otf`,
with a zero byte there it is `.ttf`: the choice is made by a byte that is not
part of the payload. -/
theorem short_payload_extension_reads_beyond :
    generate_outline_font shMasked 4 (IfStream.opened [79, 84, 84]) 3 = some threeByteContainer ∧
    main shMasked 4 generatedHeader (fun _ => 0) [79] 2 ".gfd" threeByteContainer
      = some (0, .processed (.written 69 3 ".otf" [79, 84, 84])) ∧
    main shMasked 4 generatedHeader (fun _ => 0) [0] 2 ".gfd" threeByteContainer
      = some (0, .processed (.written 69 3 ".ttf" [79, 84, 84])) := by
  refine ⟨?_, ?_, ?_⟩ <;> rfl

/-- C9 at the two `NotProcessable` inputs: a file holding a valid `Outlined`
header with bit 0 of `attr` set, and one with `texture_count = 1`. Both headers
pass the three checks of `main`, `process_outline_font` takes its early
return, and `main` returns the status 0. -/
theorem not_processable_exit_status :
    validate flaggedHeader = none ∧
    main shMasked 1 generatedHeader (fun _ => 0) [] 2 ".gfd" flaggedHeader.bytes
      = some (0, .processed (.notProcessable ⟨flaggedHeader.bytes, 52, false⟩)) ∧
    validate texturedHeader = none ∧
    main shMasked 1 generatedHeader (fun _ => 0) [] 2 ".gfd" texturedHeader.bytes
      = some (0, .processed (.notProcessable ⟨texturedHeader.bytes, 52, false⟩)) := by
  refine ⟨?_, ?_, ?_, ?_⟩ <;> rfl

/-- C10, as stated, fails: `truncatedContainer` has a valid, processable header
and ends two bytes into a payload announced as four bytes long. Decode does not
abort: it writes four bytes, the transform of the two bytes read and of two
zero bytes, and the program returns the status 0. -/
theorem truncated_payload_is_written :
    validate (read_header (IfStream.opened truncatedContainer) generatedHeader).1 = none ∧
    truncatedContainer.length = 69 + 2 ∧
    xor_crypt shMasked 5 [9, 9, 0, 0] = some [253, 92, 163, 88] ∧
    main shMasked 5 generatedHeader (fun _ => 0) [] 2 ".gfd" truncatedContainer
      = some (0, .processed (.written 69 4 ".ttf" [253, 92, 163, 88])) := by
  refine ⟨?_, ?_, ?_, ?_⟩ <;> rfl

/-- C10, amended: a short read of the payload is not detected. For every
container of bytes with a processable header that holds the skipped regions
and the three 32-bit fields in full (with `char_count + unk0 < 2^32` and a
texture-path length below `2^32 - 1`) and ends before the `buffer_size`
payload bytes are complete, Decode does not abort: it prints the payload
offset and the size read from the stream, and writes `buffer_size` bytes, the
transform of the payload bytes that are there followed by zero bytes. -/
theorem truncated_payload_padded (sh : Nat → Nat) (fuel : Nat) (junk : Nat → Nat)
    (beyond : List Nat) (data : List Nat) (h : FontHeader)
    (hdata : IsBytes data)
    (hbit : h.attr.testBit 0 = false) (htc : h.texture_count = 0)
    (hsum : h.char_count + h.unk0 < 2 ^ 32)
    (hp : texPathLen data h < 2 ^ 32 - 1)
    (hfields : sizeFieldOffset h (texPathLen data h) + 4 ≤ data.length)
    (hshort : data.length < sizeFieldOffset h (texPathLen data h) + 4
      + u32le (data.drop (sizeFieldOffset h (texPathLen data h))))
    (hfuel : u32le (data.drop (sizeFieldOffset h (texPathLen data h))) < fuel) :
    ∃ out,
      xor_crypt sh fuel (data.drop (sizeFieldOffset h (texPathLen data h) + 4) ++
        List.replicate (u32le (data.drop (sizeFieldOffset h (texPathLen data h)))
          - (data.length - (sizeFieldOffset h (texPathLen data h) + 4))) 0) = some out ∧
      out.length = u32le (data.drop (sizeFieldOffset h (texPathLen data h))) ∧
      process_outline_font sh fuel junk beyond ⟨data, 52, false⟩ h
        = some (.written (sizeFieldOffset h (texPathLen data h) + 4)
            (u32le (data.drop (sizeFieldOffset h (texPathLen data h))))
            (extensionOf out beyond) out) := by
  have hsz := u32le_lt _ (isBytes_drop data hdata (sizeFieldOffset h (texPathLen data h)))
  have hloc := process_short sh fuel junk beyond data h hbit htc hsum hp hsz hfields hshort hfuel
  have hpos : u32le (data.drop (sizeFieldOffset h (texPathLen data h))) ≠ 0 := by omega
  have hlen : (data.drop (sizeFieldOffset h (texPathLen data h) + 4) ++
      List.replicate (u32le (data.drop (sizeFieldOffset h (texPathLen data h)))
        - (data.length - (sizeFieldOffset h (texPathLen data h) + 4))) 0).length
      = u32le (data.drop (sizeFieldOffset h (texPathLen data h))) := by
    rw [List.length_append, List.length_drop, List.length_replicate]; omega
  have hx := xor_crypt_eq sh fuel (data.drop (sizeFieldOffset h (texPathLen data h) + 4) ++
      List.replicate (u32le (data.drop (sizeFieldOffset h (texPathLen data h)))
        - (data.length - (sizeFieldOffset h (texPathLen data h) + 4))) 0)
    (by rw [hlen]; exact hsz) (by rw [hlen]; exact hfuel)
  rw [hlen] at hx
  refine ⟨_, hx, by rw [xorFrom_length, hlen], ?_⟩
  rw [hloc]
  simp only [finish, hpos, if_false]

/-- C10, amended, at `truncatedContainer`: the size field at offset 65 says 4,
the file ends 2 bytes into the payload, and the bytes written are the
transform of `9, 9, 0, 0`. -/
theorem truncated_payload_padded_witness :
    sizeFieldOffset generatedHeader (texPathLen truncatedContainer generatedHeader) = 65 ∧
    u32le (truncatedContainer.drop 65) = 4 ∧
    truncatedContainer.drop (65 + 4) ++ List.replicate (4 - (truncatedContainer.length - (65 + 4))) 0
      = [9, 9, 0, 0] ∧
    ∃ out,
      xor_crypt shMasked 5
        (truncatedContainer.drop
            (sizeFieldOffset generatedHeader (texPathLen truncatedContainer generatedHeader) + 4) ++
          List.replicate
            (u32le (truncatedContainer.drop
                (sizeFieldOffset generatedHeader (texPathLen truncatedContainer generatedHeader)))
              - (truncatedContainer.length
                - (sizeFieldOffset generatedHeader (texPathLen truncatedContainer generatedHeader)
                  + 4))) 0) = some out ∧
      out.length = u32le (truncatedContainer.drop
        (sizeFieldOffset generatedHeader (texPathLen truncatedContainer generatedHeader))) ∧
      process_outline_font shMasked 5 (fun _ => 0) [] ⟨truncatedContainer, 52, false⟩
          generatedHeader
        = some (.written
            (sizeFieldOffset generatedHeader (texPathLen truncatedContainer generatedHeader) + 4)
            (u32le (truncatedContainer.drop
              (sizeFieldOffset generatedHeader (texPathLen truncatedContainer generatedHeader))))
            (extensionOf out []) out) :=
  ⟨by decide, by decide, by decide,
   truncated_payload_padded shMasked 5 (fun _ => 0) [] truncatedContainer generatedHeader
    (by decide) (by decide) (by decide) (by decide) (by decide) (by decide) (by decide)
    (by decide)⟩

/-! ## The key word -/

theorem maskLoop_ones : ∀ (count k : Nat), k + count < 64 →
    maskLoop count (2 ^ (k + 1) - 1) = 2 ^ (k + count + 1) - 1
  | 0, _, _ => rfl
  | count + 1, k, h => by
    have hp : 0 < 2 ^ (k + 1) := Nat.two_pow_pos _
    have hstep : (2 ^ (k + 1) - 1) * 2 + 1 = 2 ^ (k + 1 + 1) - 1 := by
      rw [Nat.pow_succ 2 (k + 1)]; omega
    have hlt : 2 ^ (k + 1 + 1) - 1 < 2 ^ 64 := by
      have : 2 ^ (k + 1 + 1) ≤ 2 ^ 64 := Nat.pow_le_pow_right (by decide) (by omega)
      omega
    rw [maskLoop, hstep, Nat.mod_eq_of_lt hlt, maskLoop_ones count (k + 1) (by omega)]
    congr 2
    omega

/-- For a residue from 1 to 63 the shift of line 71 is by less than 64 bits, and
the key word does not depend on what the shift by 64 yields. -/
theorem keyWord_of_pos (sh : Nat → Nat) (r : Nat) (h0 : 0 < r) (h64 : r < 64) :
    keyWord sh r = keyWord shZero r := by
  have hr : r % 64 = r := Nat.mod_eq_of_lt h64
  have hs : 64 - r < 64 := by omega
  simp only [keyWord, shl64, hr, hs, if_true]

/-- For the residue 0 the mask is 1, `1 & K` is 1, and the key word is what the
shift of 1 by 64 yields, combined with `K`. -/
theorem keyWord_zero (sh : Nat → Nat) : keyWord sh 0 = sh 1 % 2 ^ 64 ||| K := by
  have h1 : (1 : Nat) &&& K = 1 := by decide
  have h2 : K >>> 0 = K := rfl
  simp only [keyWord, shl64, Nat.zero_mod, maskLoop, h1, Nat.sub_zero, Nat.lt_irrefl, if_false, h2]

theorem keyWord_rotr : ∀ r, r < 64 → 0 < r →
    keyWord shZero r = rotr64 K r ∧
    keyWord shZero r = (K * 2 ^ (64 - r)) % 2 ^ 64 ||| K >>> r := by
  decide

theorem keyWord_inj_closed : ∀ r1, r1 < 64 → ∀ r2, r2 < 64 →
    keyWord shZero r1 = keyWord shZero r2 → r1 = r2 := by
  decide

theorem keyWord_and_K_ne : ∀ r, r < 64 → 0 < r → keyWord shZero r &&& K ≠ K := by
  decide

theorem or_and_self_right (x k : Nat) : (x ||| k) &&& k = k := by
  apply Nat.eq_of_testBit_eq
  intro i
  rw [Nat.testBit_and, Nat.testBit_or]
  cases x.testBit i <;> cases k.testBit i <;> rfl

theorem keyWord_lt (sh : Nat → Nat) (L : Nat) : keyWord sh L < 2 ^ 64 := by
  have h1 : shl64 sh (maskLoop (L % 64) 1 &&& K) (64 - L % 64) < 2 ^ 64 := by
    unfold shl64
    split <;> exact Nat.mod_lt _ (by decide)
  have h2 : K >>> (L % 64) < 2 ^ 64 := by
    rw [Nat.shiftRight_eq_div_pow]
    exact Nat.lt_of_le_of_lt (Nat.div_le_self _ _) (by decide)
  exact Nat.or_lt_two_pow h1 h2

theorem xor_key_eq (n : Nat) :
    xor_key n = [n % 256, n / 256 % 256, n / 65536 % 256, n / 16777216 % 256,
      n / 4294967296 % 256, n / 1099511627776 % 256, n / 281474976710656 % 256,
      n / 72057594037927936 % 256] := by
  have h0 : n >>> (8 * 0) = n := rfl
  have h1 : n >>> (8 * 1) = n / 256 := Nat.shiftRight_eq_div_pow n 8
  have h2 : n >>> (8 * 2) = n / 65536 := Nat.shiftRight_eq_div_pow n 16
  have h3 : n >>> (8 * 3) = n / 16777216 := Nat.shiftRight_eq_div_pow n 24
  have h4 : n >>> (8 * 4) = n / 4294967296 := Nat.shiftRight_eq_div_pow n 32
  have h5 : n >>> (8 * 5) = n / 1099511627776 := Nat.shiftRight_eq_div_pow n 40
  have h6 : n >>> (8 * 6) = n / 281474976710656 := Nat.shiftRight_eq_div_pow n 48
  have h7 : n >>> (8 * 7) = n / 72057594037927936 := Nat.shiftRight_eq_div_pow n 56
  have hr : List.range 8 = [0, 1, 2, 3, 4, 5, 6, 7] := rfl
  simp only [xor_key, hr, List.map_cons, List.map_nil, keyByte, h0, h1, h2, h3, h4, h5, h6, h7]

theorem xor_key_inj (a b : Nat) (ha : a < 2 ^ 64) (hb : b < 2 ^ 64)
    (h : xor_key a = xor_key b) : a = b := by
  rw [xor_key_eq, xor_key_eq] at h
  simp only [List.cons.injEq, and_true] at h
  omega

/-- The key word is the same for two lengths exactly when they agree modulo
64, whatever the shift by 64 yields. -/
theorem keyWord_eq_iff (sh : Nat → Nat) (L1 L2 : Nat) :
    keyWord sh L1 = keyWord sh L2 ↔ L1 % 64 = L2 % 64 := by
  constructor
  · intro h
    rw [← keyWord_mod sh L1, ← keyWord_mod sh L2] at h
    have h1 : L1 % 64 < 64 := Nat.mod_lt _ (by decide)
    have h2 : L2 % 64 < 64 := Nat.mod_lt _ (by decide)
    generalize L1 % 64 = r1 at h h1 ⊢
    generalize L2 % 64 = r2 at h h2 ⊢
    rcases Nat.eq_zero_or_pos r1 with rfl | p1 <;> rcases Nat.eq_zero_or_pos r2 with rfl | p2
    · rfl
    · exfalso
      rw [keyWord_zero, keyWord_of_pos sh r2 p2 h2] at h
      exact keyWord_and_K_ne r2 h2 p2 (by rw [← h]; exact or_and_self_right _ _)
    · exfalso
      rw [keyWord_zero, keyWord_of_pos sh r1 p1 h1] at h
      exact keyWord_and_K_ne r1 h1 p1 (by rw [h]; exact or_and_self_right _ _)
    · rw [keyWord_of_pos sh r1 p1 h1, keyWord_of_pos sh r2 p2 h2] at h
      exact keyWord_inj_closed r1 h1 r2 h2 h
  · intro h
    rw [← keyWord_mod sh L1, ← keyWord_mod sh L2, h]

/-- C12: for every length `L` with `L mod 64 = 0` the key word is the word the
shift of 1 by 64 yields, combined with `K`; it is `K` both when the hardware
masks the shift count (the shift leaves 1, and `K` is odd) and when every bit
is shifted out (the shift leaves 0), and the key is then
`45 5f 35 8a b5 39 6e ae`. -/
theorem key_word_at_residue_zero (L : Nat) (hL : L % 64 = 0) :
    (∀ sh : Nat → Nat, keyWord sh L = sh 1 % 2 ^ 64 ||| K) ∧
    keyWord shMasked L = K ∧
    keyWord shZero L = K ∧
    xor_key (keyWord shMasked L) = [0x45, 0x5f, 0x35, 0x8a, 0xb5, 0x39, 0x6e, 0xae] ∧
    xor_key (keyWord shZero L) = [0x45, 0x5f, 0x35, 0x8a, 0xb5, 0x39, 0x6e, 0xae] := by
  have hz : ∀ sh : Nat → Nat, keyWord sh L = keyWord sh 0 := fun sh => by
    rw [← keyWord_mod sh L, hL]
  have hm : keyWord shMasked 0 = K := by decide
  have h0 : keyWord shZero 0 = K := by decide
  refine ⟨fun sh => by rw [hz sh, keyWord_zero], by rw [hz, hm], by rw [hz, h0], ?_, ?_⟩
  · rw [hz, hm]; decide
  · rw [hz, h0]; decide

/-- C12 at the empty buffer and at a buffer of 64 bytes. -/
theorem key_word_at_residue_zero_witness :
    (keyWord shMasked 0 = K ∧ keyWord shZero 0 = K) ∧
    (keyWord shMasked 64 = K ∧ keyWord shZero 64 = K) :=
  ⟨⟨(key_word_at_residue_zero 0 (by decide)).2.1, (key_word_at_residue_zero 0 (by decide)).2.2.1⟩,
   ⟨(key_word_at_residue_zero 64 (by decide)).2.1, (key_word_at_residue_zero 64 (by decide)).2.2.1⟩⟩

/-- C13: for every length `L` with `r = L mod 64` from 1 to 63, whatever the
shift by 64 yields, the key word of line 71 is the 64-bit rotation of `K` to
the right by `r` bits; the mask is `n = 2^(r+1) - 1`, and the word is the same
as the one computed without the mask, `(K << (64 - r)) | (K >> r)`. -/
theorem key_word_is_rotation (sh : Nat → Nat) (L : Nat) (hL : 0 < L % 64) :
    keyWord sh L = rotr64 K (L % 64) ∧
    maskLoop (L % 64) 1 = 2 ^ (L % 64 + 1) - 1 ∧
    keyWord sh L = (K * 2 ^ (64 - L % 64)) % 2 ^ 64 ||| K >>> (L % 64) := by
  have h64 : L % 64 < 64 := Nat.mod_lt _ (by decide)
  have hk := keyWord_rotr (L % 64) h64 hL
  have hw : keyWord sh L = keyWord shZero (L % 64) := by
    rw [← keyWord_mod sh L, keyWord_of_pos sh (L % 64) hL h64]
  have hn := maskLoop_ones (L % 64) 0 (by omega)
  rw [Nat.zero_add, Nat.zero_add] at hn
  exact ⟨hw.trans hk.1, hn, hw.trans hk.2⟩

/-- C13 at `r = 63`: the key word is `0x5cdc736b146abe8b`. -/
theorem key_word_is_rotation_witness :
    rotr64 K 63 = 0x5cdc736b146abe8b ∧
    keyWord shMasked 63 = rotr64 K (63 % 64) ∧
    maskLoop (63 % 64) 1 = 2 ^ (63 % 64 + 1) - 1 ∧
    keyWord shMasked 63 = (K * 2 ^ (64 - 63 % 64)) % 2 ^ 64 ||| K >>> (63 % 64) :=
  ⟨by decide, key_word_is_rotation shMasked 63 (by decide)⟩

/-- C14: the key depends on `L mod 64` only and tells the residues apart: for
every two lengths the key words, and the 8-byte keys, are equal exactly when
`L1 mod 64 = L2 mod 64`, whatever the shift by 64 yields. -/
theorem key_injective_on_residue (sh : Nat → Nat) (L1 L2 : Nat) :
    keyWord sh L1 = keyWord sh (L1 % 64) ∧
    (keyWord sh L1 = keyWord sh L2 ↔ L1 % 64 = L2 % 64) ∧
    (xor_key (keyWord sh L1) = xor_key (keyWord sh L2) ↔ L1 % 64 = L2 % 64) := by
  refine ⟨(keyWord_mod sh L1).symm, keyWord_eq_iff sh L1 L2, ?_⟩
  constructor
  · intro h
    exact (keyWord_eq_iff sh L1 L2).mp (xor_key_inj _ _ (keyWord_lt sh L1) (keyWord_lt sh L2) h)
  · intro h
    rw [(keyWord_eq_iff sh L1 L2).mpr h]

/-- C18: for every length `L` with `r = L mod 64`, the mask built by the loop of
lines 67-69 is `2^(r+1) - 1`: no step of the loop leaves the 64-bit range, the
set bits are exactly the `r + 1` lowest, and for `r = 63` the mask is
`2^64 - 1`. -/
theorem mask_is_run_of_ones (L : Nat) :
    maskLoop (L % 64) 1 = 2 ^ (L % 64 + 1) - 1 ∧
    (∀ k, k < L % 64 → maskLoop k 1 * 2 + 1 < 2 ^ 64) ∧
    (∀ i, (maskLoop (L % 64) 1).testBit i = decide (i < L % 64 + 1)) ∧
    maskLoop 63 1 = 2 ^ 64 - 1 := by
  have h64 : L % 64 < 64 := Nat.mod_lt _ (by decide)
  have hn : ∀ k, k < 64 → maskLoop k 1 = 2 ^ (k + 1) - 1 := by
    intro k hk
    have := maskLoop_ones k 0 (by omega)
    rwa [Nat.zero_add, Nat.zero_add] at this
  refine ⟨hn _ h64, ?_, ?_, hn 63 (by decide)⟩
  · intro k hk
    rw [hn k (by omega)]
    have h1 : 2 ^ (k + 1 + 1) ≤ 2 ^ 64 := Nat.pow_le_pow_right (by decide) (by omega)
    have h2 : 2 ^ (k + 1 + 1) = 2 ^ (k + 1) * 2 := Nat.pow_succ 2 (k + 1)
    have h3 : 0 < 2 ^ (k + 1) := Nat.two_pow_pos _
    omega
  · intro i
    rw [hn _ h64, Nat.testBit_two_pow_sub_one]

/-! ## The header read -/

theorem u32le_drop_append (l tail : List Nat) (k : Nat) (hk : k + 4 ≤ l.length) :
    u32le ((l ++ tail).drop k) = u32le (l.drop k) := by
  have key : ∀ i, i < 4 → ((l ++ tail).drop k).getD i 0 = (l.drop k).getD i 0 := by
    intro i hi
    rw [List.getD_eq_getElem?_getD, List.getD_eq_getElem?_getD, List.getElem?_drop,
      List.getElem?_drop, List.getElem?_append_left (by omega)]
  unfold u32le
  rw [key 0 (by decide), key 1 (by decide), key 2 (by decide), key 3 (by decide)]

theorem u32le_drop_take (l : List Nat) (n k : Nat) (hk : k + 4 ≤ n) :
    u32le ((l.take n).drop k) = u32le (l.drop k) := by
  have key : ∀ i, i < 4 → ((l.take n).drop k).getD i 0 = (l.drop k).getD i 0 := by
    intro i hi
    rw [List.getD_eq_getElem?_getD, List.getD_eq_getElem?_getD, List.getElem?_drop,
      List.getElem?_drop, List.getElem?_take_of_lt (by omega)]
  unfold u32le
  rw [key 0 (by decide), key 1 (by decide), key 2 (by decide), key 3 (by decide)]

/-- The 32-bit field at offset `k` of the record read from a file that holds
it in full is the field of the file, whatever the rest of the record is. -/
theorem u32le_field (data tail : List Nat) (k : Nat) (hk : k + 4 ≤ 52)
    (hlen : k + 4 ≤ data.length) :
    u32le ((data.take 52 ++ tail).drop k) = u32le (data.drop k) := by
  rw [u32le_drop_append _ _ _ (by rw [List.length_take]; omega), u32le_drop_take _ _ _ hk]

theorem magic_field (data tail : List Nat) (hlen : 4 ≤ data.length) :
    (data.take 52 ++ tail).take 4 = data.take 4 := by
  rw [List.take_append_of_le_length (by rw [List.length_take]; omega), List.take_take]
  rfl

theorem read_header_eq (data : List Nat) (junkHeader : FontHeader) :
    read_header (IfStream.opened data) junkHeader =
      (FontHeader.ofBytes (data.take 52 ++ junkHeader.bytes.drop (data.take 52).length),
        ⟨data, (data.take 52).length, decide ((data.take 52).length < 52)⟩) := by
  simp [read_header, IfStream.read, IfStream.opened, sizeofFontHeader]

theorem validate_congr (g h : FontHeader) (hm : g.magic = h.magic) (hv : g.version = h.version)
    (ht : g.type = h.type) : validate g = validate h := by
  simp [validate, hm, hv, ht]

/-- A file that holds the whole record is read into the header it spells, and
the stream is left just behind the record. -/
theorem read_header_full (data : List Nat) (junkHeader : FontHeader) (hlen : 52 ≤ data.length) :
    read_header (IfStream.opened data) junkHeader = (FontHeader.ofBytes data, ⟨data, 52, false⟩) := by
  have hl : (data.take 52).length = 52 := by rw [List.length_take]; omega
  rw [read_header_eq, hl]
  simp only [FontHeader.ofBytes, lt_self_iff_false, decide_False,
    magic_field data _ (by omega),
    u32le_field data _ 4 (by decide) (by omega), u32le_field data _ 8 (by decide) (by omega),
    u32le_field data _ 12 (by decide) (by omega), u32le_field data _ 16 (by decide) (by omega),
    u32le_field data _ 20 (by decide) (by omega), u32le_field data _ 24 (by decide) (by omega),
    u32le_field data _ 28 (by decide) (by omega), u32le_field data _ 32 (by decide) (by omega),
    u32le_field data _ 36 (by decide) (by omega), u32le_field data _ 40 (by decide) (by omega),
    u32le_field data _ 44 (by decide) (by omega), u32le_field data _ 48 (by decide) (by omega)]

theorem main_gfd (sh : Nat → Nat) (fuel : Nat) (junkHeader : FontHeader) (junk : Nat → Nat)
    (beyond : List Nat) (data : List Nat) :
    main sh fuel junkHeader junk beyond 2 ".gfd" data =
      match validate (read_header (IfStream.opened data) junkHeader).1 with
      | some failure => some (1, failure)
      | none =>
        (process_outline_font sh fuel junk beyond (read_header (IfStream.opened data) junkHeader).2
          (read_header (IfStream.opened data) junkHeader).1).map fun result =>
            (exitStatus result, .processed result) := by
  have hne : ¬ ((".gfd" : String) = ".otf" ∨ (".gfd" : String) = ".ttf") := by decide
  unfold main
  rw [if_neg (by decide), if_neg hne]

/-- C11, as stated, fails: `shortStream` is 20 bytes long, shorter than the
52-byte record, and holds the right magic, version and type. The header read
from it passes the three checks, whatever the rest of the record holds, and
`main` goes on to `process_outline_font`; with a `texture_count` of 1 left in
the uninitialised rest, Decode refuses the header at line 82, on a stream that
stands at position 20 with `failbit` set. -/
theorem short_stream_passes_validation :
    shortStream.length = 20 ∧
    validate (read_header (IfStream.opened shortStream) zeroHeader).1 = none ∧
    validate (read_header (IfStream.opened shortStream) texturedHeader).1 = none ∧
    main shMasked 1 texturedHeader (fun _ => 0) [] 2 ".gfd" shortStream
      = some (0, .processed (.notProcessable ⟨shortStream, 20, true⟩)) :=
  ⟨rfl, rfl, rfl, rfl⟩

/-- C11, amended: a stream is not rejected for being shorter than the record.
For every stream of at least 20 bytes, also one shorter than 52, the verdict of
the validation is that of the stream's own magic, version and type fields,
whatever the rest of the record holds; when the three fields match, the header
passes and `main` goes on to `process_outline_font`. -/
theorem short_stream_validation (sh : Nat → Nat) (fuel : Nat) (junkHeader : FontHeader)
    (junk : Nat → Nat) (beyond : List Nat) (data : List Nat) (hlen : 20 ≤ data.length) :
    validate (read_header (IfStream.opened data) junkHeader).1 = validate (FontHeader.ofBytes data) ∧
    (validate (FontHeader.ofBytes data) = none →
      main sh fuel junkHeader junk beyond 2 ".gfd" data =
        (process_outline_font sh fuel junk beyond (read_header (IfStream.opened data) junkHeader).2
          (read_header (IfStream.opened data) junkHeader).1).map fun result =>
            (exitStatus result, .processed result)) := by
  have hv : validate (read_header (IfStream.opened data) junkHeader).1
      = validate (FontHeader.ofBytes data) := by
    rw [read_header_eq]
    apply validate_congr
    · exact magic_field data _ (by omega)
    · exact u32le_field data _ 4 (by decide) (by omega)
    · exact u32le_field data _ 16 (by decide) (by omega)
  refine ⟨hv, fun hok => ?_⟩
  rw [main_gfd, hv, hok]

/-- C11, amended, at `shortStream`: 20 bytes, the three fields right. -/
theorem short_stream_validation_witness :
    validate (read_header (IfStream.opened shortStream) texturedHeader).1
      = validate (FontHeader.ofBytes shortStream) ∧
    (validate (FontHeader.ofBytes shortStream) = none →
      main shMasked 1 texturedHeader (fun _ => 0) [] 2 ".gfd" shortStream =
        (process_outline_font shMasked 1 (fun _ => 0) []
          (read_header (IfStream.opened shortStream) texturedHeader).2
          (read_header (IfStream.opened shortStream) texturedHeader).1).map fun result =>
            (exitStatus result, .processed result)) :=
  short_stream_validation shMasked 1 texturedHeader (fun _ => 0) [] shortStream (by decide)

/-- C15 at `char_count = 2^32 - 1`, `unk0 = 1`: the header is valid and
processable, the exact product `(char_count + unk0) * 20` is 85899345920, and
Decode skips no glyph byte at all: it reads the size at offset 65, right behind
f0 and f4, and the payload at offset 69. -/
theorem glyph_skip_wraps :
    validate wrappingHeader = none ∧
    wrappingHeader.WF ∧
    (wrappingHeader.char_count + wrappingHeader.unk0) * 20 = 85899345920 ∧
    (wrappingHeader.char_count + wrappingHeader.unk0) % 2 ^ 32 * 20 = 0 ∧
    wrappingContainer.length = 69 + 2 ∧
    main shMasked 3 zeroHeader (fun _ => 0) [] 2 ".gfd" wrappingContainer
      = some (0, .processed (.written 69 2 ".ttf" [208, 85])) := by
  refine ⟨rfl, by decide, rfl, rfl, rfl, rfl⟩

/-- C16: the loop of lines 93-96 is never entered. For every header that passes
the gate (bit 0 of `attr` clear and `texture_count = 0`) the guard of line 92 is
false and the loop would run zero times; and for every input
`process_outline_font` returns what the function without lines 92-97
returns. -/
theorem texture_name_loop_unreachable (sh : Nat → Nat) (fuel : Nat) (junk : Nat → Nat)
    (beyond : List Nat) (file : IfStream) (h : FontHeader) :
    (¬ (h.attr &&& 1 ≠ 0 ∨ h.texture_count ≠ 0) →
      ¬ (h.attr >>> 3 &&& 1 = 0 ∧ h.texture_count ≠ 0) ∧
      ∀ g : IfStream, skipNames junk h.texture_count 0 g = g) ∧
    ((h.attr.testBit 0 = false ∧ h.texture_count = 0) ↔
      ¬ (h.attr &&& 1 ≠ 0 ∨ h.texture_count ≠ 0)) ∧
    process_outline_font sh fuel junk beyond file h
      = process_outline_font_without_loop sh fuel junk beyond file h := by
  have hbit : h.attr.testBit 0 = false ↔ h.attr &&& 1 = 0 := by
    rw [Nat.testBit_zero, Nat.and_one_is_mod]
    simp only [decide_eq_false_iff_not]
    omega
  refine ⟨?_, ?_, ?_⟩
  · intro hg
    have htc : h.texture_count = 0 := by
      by_contra hne
      exact hg (Or.inr hne)
    refine ⟨fun hh => hh.2 htc, fun g => ?_⟩
    rw [htc]
    rfl
  · constructor
    · rintro ⟨h1, h2⟩ (h3 | h3)
      · exact h3 (hbit.mp h1)
      · exact h3 h2
    · intro hg
      constructor
      · rw [hbit]
        by_contra hne
        exact hg (Or.inl hne)
      · by_contra hne
        exact hg (Or.inr hne)
  · by_cases hg : h.attr &&& 1 ≠ 0 ∨ h.texture_count ≠ 0
    · simp only [process_outline_font, process_outline_font_without_loop, hg, if_true]
    · have hloop : ¬ (h.attr >>> 3 &&& 1 = 0 ∧ h.texture_count ≠ 0) :=
        fun hh => hg (Or.inr hh.2)
      simp only [process_outline_font, process_outline_font_without_loop, hg, hloop, if_false]

/-- C17: when the header is refused (bit 0 of `attr` set or `texture_count`
not zero), `process_outline_font` returns at line 84 with the stream exactly as
it received it and writes nothing; run on a file that holds a valid header of
that kind, the program ends with the stream at position 52, just behind the
header, and not failed. -/
theorem refusal_leaves_stream (sh : Nat → Nat) (fuel : Nat) (junkHeader : FontHeader)
    (junk : Nat → Nat) (beyond : List Nat) (data : List Nat)
    (hlen : 52 ≤ data.length)
    (hvalid : validate (FontHeader.ofBytes data) = none)
    (hgate : (FontHeader.ofBytes data).attr.testBit 0 = true ∨
      (FontHeader.ofBytes data).texture_count ≠ 0) :
    (∀ file : IfStream,
      process_outline_font sh fuel junk beyond file (FontHeader.ofBytes data)
        = some (.notProcessable file)) ∧
    (∀ (file : IfStream) (offset buffer_size : Nat) (extension : String) (bytes : List Nat),
      process_outline_font sh fuel junk beyond file (FontHeader.ofBytes data)
        ≠ some (.written offset buffer_size extension bytes)) ∧
    main sh fuel junkHeader junk beyond 2 ".gfd" data
      = some (0, .processed (.notProcessable ⟨data, 52, false⟩)) := by
  have hbit : (FontHeader.ofBytes data).attr.testBit 0 = true ↔
      (FontHeader.ofBytes data).attr &&& 1 ≠ 0 := by
    rw [Nat.testBit_zero, Nat.and_one_is_mod]
    simp
  have hg : (FontHeader.ofBytes data).attr &&& 1 ≠ 0 ∨ (FontHeader.ofBytes data).texture_count ≠ 0 :=
    hgate.imp hbit.mp id
  have hp : ∀ file : IfStream,
      process_outline_font sh fuel junk beyond file (FontHeader.ofBytes data)
        = some (.notProcessable file) := by
    intro file
    simp only [process_outline_font, hg, if_true]
  refine ⟨hp, ?_, ?_⟩
  · intro file offset buffer_size extension bytes hw
    rw [hp file] at hw
    cases hw
  · rw [main_gfd, read_header_full data junkHeader hlen, hvalid, hp, Option.map_some']
    rfl

/-- C17 at a file that holds `flaggedHeader` (bit 0 of `attr` set) and at one
that holds `texturedHeader` (`texture_count = 1`). -/
theorem refusal_leaves_stream_witness :
    main shMasked 1 zeroHeader (fun _ => 0) [] 2 ".gfd" flaggedHeader.bytes
      = some (0, .processed (.notProcessable ⟨flaggedHeader.bytes, 52, false⟩)) ∧
    main shMasked 1 zeroHeader (fun _ => 0) [] 2 ".gfd" texturedHeader.bytes
      = some (0, .processed (.notProcessable ⟨texturedHeader.bytes, 52, false⟩)) :=
  ⟨(refusal_leaves_stream shMasked 1 zeroHeader (fun _ => 0) [] flaggedHeader.bytes
      (by decide) (by decide) (by decide)).2.2,
   (refusal_leaves_stream shMasked 1 zeroHeader (fun _ => 0) [] texturedHeader.bytes
      (by decide) (by decide) (by decide)).2.2⟩

end FontUtil

